import Mathlib

/-!
# Talos init: service supervisor, kubelet arguments, kubeadm configuration

A shallow embedding of

* `internal/app/init/pkg/system/system.go` (`singleton.Start`, `singleton.Shutdown`),
* `internal/app/init/pkg/system/services/kubelet.go` (`Kubelet.Runner`, process arguments),
* `pkg/userdata/kubeadm.go` (`Kubeadm.UnmarshalYAML`),

followed by theorems about them.

The supervisor is modelled by explicit state passing.  Every call returns the
state it leaves behind, the sequence of effects it performed, and whether it
returned at all (a `Lock` on a mutex that is already held never comes back in
a sequential execution).
-/

namespace Talos

/-! ## Data model -/

/-- Modelled from the spec: the `userdata.UserData` type, declared elsewhere in
package `userdata`.  It is the shared node configuration, read-only for the
supervisor; only its identity matters here. -/
structure UserData where
  doc : String
  deriving DecidableEq, Repr

/-- Modelled from the spec: the `ServiceRunner` type, declared in another file of
package `system`.  A `*ServiceRunner` is a pointer: `addr` is the identity of
the allocated object, `id` is the service ID copied from the descriptor when the
runner is created. -/
structure ServiceRunner where
  addr : Nat
  id : String
  deriving DecidableEq, Repr

/-- The `Service` interface, restricted to the one method the supervisor itself
calls (`ID`); the other methods are invoked by the ServiceRunner's own
goroutine. -/
structure Service where
  ID : UserData → String

/-- Modelled from the spec: `NewServiceRunner(service, userData)`, declared in
another file of package `system`.  It allocates a fresh ServiceRunner (at
address `addr`) that wraps the descriptor and carries its ID. -/
def NewServiceRunner (service : Service) (data : UserData) (addr : Nat) : ServiceRunner :=
  { addr := addr, id := service.ID data }

/-- A Go `map[string]*ServiceRunner`, kept as an association list. -/
abbrev Registry := List (String × ServiceRunner)

/-- Map read `m[id]` (the comma-ok form: `none` when the key is absent). -/
def Registry.get : Registry → String → Option ServiceRunner
  | [], _ => none
  | (k, v) :: rest, id => if k = id then some v else Registry.get rest id

/-- Map write `m[id] = v`: replaces the value under an existing key, adds the
key otherwise. -/
def Registry.set : Registry → String → ServiceRunner → Registry
  | [], id, v => [(id, v)]
  | (k, w) :: rest, id, v =>
    if k = id then (k, v) :: rest else (k, w) :: Registry.set rest id v

/-- The keys of the map. -/
def Registry.keys (m : Registry) : List String := m.map Prod.fst

/-- What a Go map built by `Start` always satisfies: every key occurs once, and
the runner stored under a key carries that key as its ID. -/
def Registry.WF (m : Registry) : Prop :=
  m.keys.Nodup ∧ ∀ p ∈ m, p.2.id = p.1

instance (m : Registry) : Decidable (Registry.WF m) := by
  unfold Registry.WF; exact inferInstance

/-- The supervisor.  `mu` is true while the mutex is held, `wg` is the
WaitGroup counter.  `allocs` is not a field of the Go struct: it counts the
ServiceRunner objects allocated so far and is the address the next allocation
gets. -/
structure singleton where
  UserData : UserData
  State : Registry
  mu : Bool
  wg : Nat
  terminating : Bool
  allocs : Nat
  deriving DecidableEq, Repr

/-- What `Services(data)` builds on its first call. -/
def Services (data : UserData) : singleton :=
  { UserData := data, State := [], mu := false, wg := 0, terminating := false, allocs := 0 }

/-- The effects a supervisor call performs, in program order. -/
inductive Effect where
  | lock
  | unlock
  | readTerminating
  | setTerminating
  | lookup (id : String)
  | newRunner (r : ServiceRunner)
  | insert (id : String) (r : ServiceRunner)
  | wgAdd (n : Nat)
  | go (r : ServiceRunner)
  | stop (r : ServiceRunner)
  | sleep (d : Nat)
  | wgWait
  deriving DecidableEq, Repr

/-- The outcome of one call (or of a sequence of calls). -/
structure Result where
  state : singleton
  trace : List Effect
  returned : Bool
  deriving DecidableEq, Repr

/-! ## `Start` -/

/-- One iteration of the `for _, service := range services` loop of `Start`. -/
def startStep (s : singleton) (service : Service) : singleton × List Effect :=
  let id := service.ID s.UserData
  match s.State.get id with
  | some _ => (s, [Effect.lookup id])
  | none =>
    let svcrunner := NewServiceRunner service s.UserData s.allocs
    ({ s with State := s.State.set id svcrunner, wg := s.wg + 1, allocs := s.allocs + 1 },
      [Effect.lookup id, Effect.newRunner svcrunner, Effect.insert id svcrunner,
        Effect.wgAdd 1, Effect.go svcrunner])

/-- The whole loop of `Start`. -/
def startLoop : singleton → List Service → singleton × List Effect
  | s, [] => (s, [])
  | s, service :: rest =>
    let step := startStep s service
    let tail := startLoop step.1 rest
    (tail.1, step.2 ++ tail.2)

/-- `singleton.Start`.  The early `return` on `terminating` comes before the
`defer s.mu.Unlock()` is registered, so on that path the mutex stays held. -/
def Start (s : singleton) (services : List Service) : Result :=
  if s.mu then
    { state := s, trace := [], returned := false }
  else
    let s1 := { s with mu := true }
    if s1.terminating then
      { state := s1, trace := [Effect.lock, Effect.readTerminating], returned := true }
    else
      let loop := startLoop s1 services
      { state := { loop.1 with mu := false },
        trace := [Effect.lock, Effect.readTerminating] ++ loop.2 ++ [Effect.unlock],
        returned := true }

/-! ## `Shutdown` -/

/-- `ShutdownHackySleep = 10 * time.Second`, in nanoseconds. -/
def ShutdownHackySleep : Nat := 10 * 1000000000

/-- The first loop of `Shutdown`, over the entries in the order `range` yields
them. -/
def wave1 : Registry → List Effect
  | [] => []
  | (name, svcrunner) :: rest =>
    if name ≠ "containerd" ∧ name ≠ "udevd" then
      Effect.stop svcrunner :: wave1 rest
    else
      wave1 rest

/-- The second loop of `Shutdown`. -/
def wave2 : Registry → List Effect
  | [] => []
  | (_, svcrunner) :: rest => Effect.stop svcrunner :: wave2 rest

/-- `singleton.Shutdown`.  Go leaves the iteration order of a map unspecified:
`range1` and `range2` are the orders in which the two `range s.State` loops
visit the entries (permutations of `s.State`).  `wg.Wait()` returns once the
counter is zero; the `wg.Done()` calls are made by the run goroutines, so the
state left behind has counter zero. -/
def Shutdown (s : singleton) (range1 range2 : Registry) : Result :=
  if s.mu then
    { state := s, trace := [], returned := false }
  else
    let s1 := { s with mu := true }
    if s1.terminating then
      { state := { s1 with mu := false },
        trace := [Effect.lock, Effect.readTerminating, Effect.unlock],
        returned := true }
    else
      let s2 := { s1 with terminating := true }
      { state := { s2 with mu := false, wg := 0 },
        trace := [Effect.lock, Effect.readTerminating, Effect.setTerminating]
          ++ wave1 range1 ++ [Effect.sleep ShutdownHackySleep] ++ wave2 range2
          ++ [Effect.unlock, Effect.wgWait],
        returned := true }

/-! ## Sequences of calls -/

/-- A call on the supervisor. -/
inductive Call where
  | start (services : List Service)
  | shutdown (range1 range2 : Registry)

/-- One call. -/
def Call.run (s : singleton) : Call → Result
  | Call.start services => Start s services
  | Call.shutdown range1 range2 => Shutdown s range1 range2

/-- Calls made one after the other by one caller; a call that never returns
ends the sequence. -/
def runCalls : singleton → List Call → Result
  | s, [] => { state := s, trace := [], returned := true }
  | s, c :: rest =>
    let r := c.run s
    if r.returned then
      let r2 := runCalls r.state rest
      { state := r2.state, trace := r.trace ++ r2.trace, returned := r2.returned }
    else r

/-- A sequence of `Start` calls. -/
def StartAll (s : singleton) (batches : List (List Service)) : Result :=
  runCalls s (batches.map Call.start)

/-! ## Reading traces -/

/-- The goroutine launches (`go func(svcrunner)`) for runners with the given ID. -/
def launches (id : String) (trace : List Effect) : Nat :=
  trace.countP (fun e => match e with
    | Effect.go r => decide (r.id = id)
    | _ => false)

/-- The ServiceRunner allocations for the given ID. -/
def creations (id : String) (trace : List Effect) : Nat :=
  trace.countP (fun e => match e with
    | Effect.newRunner r => decide (r.id = id)
    | _ => false)

/-- The sum of all `wg.Add` arguments. -/
def wgAdds : List Effect → Nat
  | [] => 0
  | Effect.wgAdd n :: rest => n + wgAdds rest
  | _ :: rest => wgAdds rest

/-- The stop requests (`svcrunner.Shutdown()`) of a trace, in order. -/
def stops (trace : List Effect) : List ServiceRunner :=
  trace.filterMap (fun e => match e with
    | Effect.stop r => some r
    | _ => none)

/-- The effects by which `Start` takes a service on: allocating a ServiceRunner,
writing it into the registry, `wg.Add`, and launching the goroutine. -/
def Effect.registers : Effect → Bool
  | Effect.newRunner _ => true
  | Effect.insert _ _ => true
  | Effect.wgAdd _ => true
  | Effect.go _ => true
  | _ => false

/-- The operations that can block: a stop request, the settling sleep, the wait
on the WaitGroup. -/
def Effect.blocking : Effect → Bool
  | Effect.stop _ => true
  | Effect.sleep _ => true
  | Effect.wgWait => true
  | _ => false

/-- Does an effect satisfying `p` occur while the mutex is held?  `held` is the
mutex state at the start of the trace. -/
def underLock (p : Effect → Bool) : Bool → List Effect → Bool
  | _, [] => false
  | _, Effect.lock :: rest => underLock p true rest
  | _, Effect.unlock :: rest => underLock p false rest
  | held, e :: rest => (held && p e) || underLock p held rest

/-- The number of goroutine launches in a trace. -/
def goCount (trace : List Effect) : Nat :=
  trace.countP (fun e => match e with
    | Effect.go _ => true
    | _ => false)

/-- The relation between the state before and after some iterations of the
`Start` loop that performed the effects `t`. -/
structure Grows (s s2 : singleton) (t : List Effect) : Prop where
  userData : s2.UserData = s.UserData
  mu : s2.mu = s.mu
  terminating : s2.terminating = s.terminating
  keep : ∀ id r0, s.State.get id = some r0 → s2.State.get id = some r0
  nodup : s.State.keys.Nodup → s2.State.keys.Nodup
  ids : (∀ p ∈ s.State, p.2.id = p.1) → ∀ p ∈ s2.State, p.2.id = p.1
  launched : ∀ id, launches id t + (if id ∈ s.State.keys then 1 else 0)
    = (if id ∈ s2.State.keys then 1 else 0)
  created : ∀ id, creations id t + (if id ∈ s.State.keys then 1 else 0)
    = (if id ∈ s2.State.keys then 1 else 0)
  wg : s2.wg = s.wg + wgAdds t
  size : s2.wg + s.State.length = s.wg + s2.State.length
  adds : wgAdds t = goCount t
  allocs : s2.allocs + s.State.length = s.allocs + s2.State.length
  goes : ∀ r, Effect.go r ∈ t → s2.State.get r.id = some r
  quiet : ∀ e ∈ t, e.blocking = false

/-! ## Kubelet: process arguments -/

/-- Go's `strings.HasPrefix`.  A Go string is a byte sequence, kept here as a
list with one `Char` per byte. -/
def HasPrefix (s affix : List Char) : Bool :=
  decide (affix.length ≤ s.length) && decide (s.take affix.length = affix)

/-- Go's `strings.TrimPrefix`: `s` without the leading `affix` when it has one,
`s` itself otherwise. -/
def TrimPrefix (s affix : List Char) : List Char :=
  if HasPrefix s affix then s.drop affix.length else s

/-- Go's `strings.HasSuffix`. -/
def HasSuffix (s affix : List Char) : Bool :=
  decide (affix.length ≤ s.length) && decide (s.drop (s.length - affix.length) = affix)

/-- Go's `strings.TrimSuffix`. -/
def TrimSuffix (s affix : List Char) : List Char :=
  if HasSuffix s affix then s.take (s.length - affix.length) else s

/-- Go's `strings.IndexByte`: the position of the first `c` in `s`, `none` for -1. -/
def IndexByte : List Char → Char → Option Nat
  | [], _ => none
  | x :: rest, c => if x = c then some 0 else (IndexByte rest c).map (fun i => i + 1)

/-- The loop of Go's `genSplit` for a one-byte separator: at most `n` cuts, each
at the first separator of what is left. -/
def splitLoop (sep : Char) : Nat → List Char → List (List Char)
  | 0, s => [s]
  | n + 1, s =>
    match IndexByte s sep with
    | none => [s]
    | some m => s.take m :: splitLoop sep n (s.drop (m + 1))

/-- Go's `strings.Split(s, sep)` for a one-byte separator: `genSplit` with
`n = Count(s, sep) + 1` pieces at most. -/
def Split (s : List Char) (sep : Char) : List (List Char) :=
  splitLoop sep (s.count sep) s

/-- The `runner.Args` struct, with the fields `Kubelet.Runner` sets. -/
structure Args where
  ID : String
  ProcessArgs : List (List Char)
  deriving DecidableEq, Repr

/-- `Kubelet.ID`. -/
def Kubelet.ID (_data : UserData) : String := "kubelet"

/-- `Kubelet.Runner`, as far as the arguments of the runner it returns go.
`ContainerdAddress` is `constants.ContainerdAddress`, declared in package
`constants`; `readFile` is what `ioutil.ReadFile("/var/lib/kubelet/kubeadm-flags.env")`
returns and `cniMounts` whether `cni.Mounts(data)` succeeds.  Mounts and
environment are passed to the runner next to `args` and do not touch it. -/
def Kubelet.Runner (ContainerdAddress : List Char) (data : UserData)
    (readFile : Except String (List Char)) (cniMounts : Except String Unit) :
    Except String Args :=
  let args : Args :=
    { ID := Kubelet.ID data,
      ProcessArgs :=
        [ "/hyperkube".toList,
          "kubelet".toList,
          "--bootstrap-kubeconfig=/etc/kubernetes/bootstrap-kubelet.conf".toList,
          "--kubeconfig=/etc/kubernetes/kubelet.conf".toList,
          "--config=/var/lib/kubelet/config.yaml".toList,
          "--container-runtime=remote".toList,
          "--runtime-request-timeout=15m".toList,
          "--container-runtime-endpoint=unix://".toList ++ ContainerdAddress ] }
  match readFile with
  | Except.error err => Except.error err
  | Except.ok fileBytes =>
    let argsString := TrimPrefix fileBytes "KUBELET_KUBEADM_ARGS=".toList
    let argsString := TrimSuffix argsString "\n".toList
    let args := { args with ProcessArgs := args.ProcessArgs ++ Split argsString ' ' }
    match cniMounts with
    | Except.error err => Except.error err
    | Except.ok _ => Except.ok args

/-- Go's `strings.Join` with a one-byte separator. -/
def Join : List (List Char) → Char → List Char
  | [], _ => []
  | [a], _ => a
  | a :: b :: rest, sep => a ++ sep :: Join (b :: rest) sep

/-! ## Kubeadm: `UnmarshalYAML` -/

/-- The `schema.GroupVersionKind` of the Kubernetes API machinery. -/
structure GroupVersionKind where
  Group : String
  Version : String
  Kind : String
  deriving DecidableEq, Repr

/-- The kubeadm `InitConfiguration`; its contents play no part here. -/
structure InitConfiguration where
  body : String
  deriving DecidableEq, Repr

/-- The kubeadm `JoinConfiguration`, reduced to the field `UnmarshalYAML` reads:
`ControlPlane` is a pointer, `none` standing for nil. -/
structure JoinConfiguration where
  ControlPlane : Option String
  deriving DecidableEq, Repr

/-- A `runtime.Object` as far as `UnmarshalYAML` tells them apart. -/
inductive Object where
  | initConfiguration (cfg : InitConfiguration)
  | joinConfiguration (cfg : JoinConfiguration)
  | other (kind : String)
  deriving DecidableEq, Repr

/-- The `CommonServiceOptions` embedded in `Kubeadm`, declared elsewhere in package
`userdata`; its contents play no part here. -/
structure CommonServiceOptions where
  raw : String
  deriving DecidableEq, Repr

/-- The fields of `Kubeadm` that a YAML document can set: the exported fields
whose tag is not "-". -/
structure KubeadmAlias where
  CommonServiceOptions : CommonServiceOptions
  ConfigurationStr : String
  ExtraArgs : List String
  CertificateKey : String
  IgnorePreflightErrors : List String
  deriving DecidableEq, Repr

/-- The `Kubeadm` struct.  `Configuration` is an interface value, `none` standing
for nil. -/
structure Kubeadm where
  CommonServiceOptions : CommonServiceOptions
  Configuration : Option Object
  ConfigurationStr : String
  ExtraArgs : List String
  CertificateKey : String
  IgnorePreflightErrors : List String
  bootstrap : Bool
  controlPlane : Bool
  deriving DecidableEq, Repr

/-- The zero value of `Kubeadm`. -/
def Kubeadm.zero : Kubeadm :=
  { CommonServiceOptions := ⟨""⟩, Configuration := none, ConfigurationStr := "",
    ExtraArgs := [], CertificateKey := "", IgnorePreflightErrors := [],
    bootstrap := false, controlPlane := false }

/-- The view of a `Kubeadm` that the YAML decoder gets (`(*KubeadmAlias)(kdm)`). -/
def Kubeadm.alias (kdm : Kubeadm) : KubeadmAlias :=
  { CommonServiceOptions := kdm.CommonServiceOptions, ConfigurationStr := kdm.ConfigurationStr,
    ExtraArgs := kdm.ExtraArgs, CertificateKey := kdm.CertificateKey,
    IgnorePreflightErrors := kdm.IgnorePreflightErrors }

/-- Writing the decoded fields back; `Configuration`, `bootstrap` and
`controlPlane` are out of the decoder's reach. -/
def Kubeadm.decoded (kdm : Kubeadm) (a : KubeadmAlias) : Kubeadm :=
  { kdm with
    CommonServiceOptions := a.CommonServiceOptions, ConfigurationStr := a.ConfigurationStr,
    ExtraArgs := a.ExtraArgs, CertificateKey := a.CertificateKey,
    IgnorePreflightErrors := a.IgnorePreflightErrors }

/-- The functions of the kubeadm libraries that `UnmarshalYAML` calls on the
configuration bytes; they are not part of this repository and are taken as
given. -/
structure KubeadmLib where
  GroupVersionKindsFromBytes : String → Except String (List GroupVersionKind)
  BytesToInitConfiguration : String → Except String InitConfiguration
  UnmarshalFromYamlForCodecs : String → Except String Object

/-- The kubeadm `GroupVersionKindsHasKind`: some entry has the given kind. -/
def GroupVersionKindsHasKind (gvks : List GroupVersionKind) (kind : String) : Bool :=
  gvks.any (fun gvk => decide (gvk.Kind = kind))

/-- The kubeadm `GroupVersionKindsHasInitConfiguration`. -/
def GroupVersionKindsHasInitConfiguration (gvks : List GroupVersionKind) : Bool :=
  GroupVersionKindsHasKind gvks "InitConfiguration"

/-- The kubeadm `GroupVersionKindsHasJoinConfiguration`. -/
def GroupVersionKindsHasJoinConfiguration (gvks : List GroupVersionKind) : Bool :=
  GroupVersionKindsHasKind gvks "JoinConfiguration"

/-- The `if GroupVersionKindsHasInitConfiguration` block of `UnmarshalYAML`. -/
def unmarshalInit (lib : KubeadmLib) (kdm : Kubeadm) (b : String)
    (gvks : List GroupVersionKind) : Kubeadm × Option String :=
  if GroupVersionKindsHasInitConfiguration gvks then
    match lib.BytesToInitConfiguration b with
    | Except.error err => (kdm, some err)
    | Except.ok cfg =>
      ({ kdm with Configuration := some (Object.initConfiguration cfg), bootstrap := true }, none)
  else (kdm, none)

/-- The `if GroupVersionKindsHasJoinConfiguration` block of `UnmarshalYAML`. -/
def unmarshalJoin (lib : KubeadmLib) (kdm : Kubeadm) (b : String)
    (gvks : List GroupVersionKind) : Kubeadm × Option String :=
  if GroupVersionKindsHasJoinConfiguration gvks then
    match lib.UnmarshalFromYamlForCodecs b with
    | Except.error err => (kdm, some err)
    | Except.ok cfg =>
      let kdm1 := { kdm with Configuration := some cfg, bootstrap := false }
      match cfg with
      | Object.joinConfiguration joinConfiguration =>
        if joinConfiguration.ControlPlane = none then
          ({ kdm1 with controlPlane := false }, none)
        else
          ({ kdm1 with controlPlane := true }, none)
      | _ => (kdm1, some "expected JoinConfiguration")
  else (kdm, none)

/-- `Kubeadm.UnmarshalYAML`: the receiver as the call leaves it, and the error
(`none` for nil).  `unmarshal` is the decoder callback: given the fields as they
are it yields the fields as decoded, and an error or nil. -/
def Kubeadm.UnmarshalYAML (lib : KubeadmLib) (kdm : Kubeadm)
    (unmarshal : KubeadmAlias → KubeadmAlias × Option String) : Kubeadm × Option String :=
  let kdm0 := kdm.decoded (unmarshal kdm.alias).1
  match (unmarshal kdm.alias).2 with
  | some err => (kdm0, some err)
  | none =>
    let b := kdm0.ConfigurationStr
    match lib.GroupVersionKindsFromBytes b with
    | Except.error err => (kdm0, some err)
    | Except.ok gvks =>
      match unmarshalInit lib kdm0 b gvks with
      | (kdm1, some err) => (kdm1, some err)
      | (kdm1, none) => unmarshalJoin lib kdm1 b gvks

/-- A sample of the library functions: every document holds an InitConfiguration
and a JoinConfiguration, and decodes to a JoinConfiguration with a ControlPlane. -/
def sampleLib : KubeadmLib :=
  { GroupVersionKindsFromBytes := fun _ =>
      Except.ok [⟨"kubeadm.k8s.io", "v1beta1", "InitConfiguration"⟩,
        ⟨"kubeadm.k8s.io", "v1beta1", "JoinConfiguration"⟩]
    BytesToInitConfiguration := fun b => Except.ok ⟨b⟩
    UnmarshalFromYamlForCodecs := fun _ => Except.ok (Object.joinConfiguration ⟨some "cp"⟩) }

/-- A sample decoder callback: the document sets `configuration` only. -/
def sampleUnmarshal (a : KubeadmAlias) : KubeadmAlias × Option String :=
  ({ a with ConfigurationStr := "kind: JoinConfiguration" }, none)

/-! ## Facts about the registry -/

theorem Registry.get_eq_none_iff (m : Registry) (id : String) :
    m.get id = none ↔ id ∉ m.keys := by
  induction m with
  | nil => simp [Registry.get, Registry.keys]
  | cons p rest ih =>
    obtain ⟨k, v⟩ := p
    by_cases h : k = id
    · simp [Registry.get, Registry.keys, h]
    · have h2 : ¬ id = k := fun e => h e.symm
      simpa [Registry.get, Registry.keys, h, h2] using ih

theorem Registry.set_of_get_none (m : Registry) (id : String) (v : ServiceRunner)
    (h : m.get id = none) : m.set id v = m ++ [(id, v)] := by
  induction m with
  | nil => simp [Registry.set]
  | cons p rest ih =>
    obtain ⟨k, w⟩ := p
    by_cases hk : k = id
    · simp [Registry.get, hk] at h
    · simp only [Registry.get, hk, if_false] at h
      simp [Registry.set, hk, ih h]

theorem Registry.get_append_single (m : Registry) (id id2 : String) (v : ServiceRunner) :
    Registry.get (m ++ [(id, v)]) id2 =
      match m.get id2 with
      | some r => some r
      | none => if id = id2 then some v else none := by
  induction m with
  | nil => simp [Registry.get]
  | cons p rest ih =>
    obtain ⟨k, w⟩ := p
    by_cases hk : k = id2
    · simp [Registry.get, hk]
    · simp [Registry.get, hk, ih]

/-! ## What a run of `Start` iterations does to the supervisor -/

theorem wgAdds_append (t1 t2 : List Effect) : wgAdds (t1 ++ t2) = wgAdds t1 + wgAdds t2 := by
  induction t1 with
  | nil => simp [wgAdds]
  | cons e rest ih => cases e <;> simp [wgAdds, ih, Nat.add_assoc]

theorem launches_append (id : String) (t1 t2 : List Effect) :
    launches id (t1 ++ t2) = launches id t1 + launches id t2 := by
  simp [launches]

theorem creations_append (id : String) (t1 t2 : List Effect) :
    creations id (t1 ++ t2) = creations id t1 + creations id t2 := by
  simp [creations]

theorem goCount_append (t1 t2 : List Effect) : goCount (t1 ++ t2) = goCount t1 + goCount t2 := by
  simp [goCount]

theorem Registry.mem_keys_of_get (m : Registry) (id : String) (r : ServiceRunner)
    (h : m.get id = some r) : id ∈ m.keys := by
  by_contra hc
  rw [← Registry.get_eq_none_iff] at hc
  rw [hc] at h
  cases h

theorem Grows.refl (s : singleton) : Grows s s [] where
  userData := rfl
  mu := rfl
  terminating := rfl
  keep := fun _ _ h => h
  nodup := fun h => h
  ids := fun h => h
  launched := by intro id; simp [launches]
  created := by intro id; simp [creations]
  wg := by simp [wgAdds]
  size := rfl
  adds := by simp [wgAdds, goCount]
  allocs := rfl
  goes := by intro r h; simp at h
  quiet := by intro e h; simp at h

theorem Grows.mono {s s2 : singleton} {t : List Effect} (h : Grows s s2 t) (id : String)
    (hid : id ∈ s.State.keys) : id ∈ s2.State.keys := by
  have := h.launched id
  by_contra hc
  simp [hid, hc] at this

theorem Grows.trans {s s2 s3 : singleton} {t1 t2 : List Effect}
    (h1 : Grows s s2 t1) (h2 : Grows s2 s3 t2) : Grows s s3 (t1 ++ t2) where
  userData := h2.userData.trans h1.userData
  mu := h2.mu.trans h1.mu
  terminating := h2.terminating.trans h1.terminating
  keep := fun id r0 h => h2.keep id r0 (h1.keep id r0 h)
  nodup := fun h => h2.nodup (h1.nodup h)
  ids := fun h => h2.ids (h1.ids h)
  launched := by
    intro id
    have a := h1.launched id
    have b := h2.launched id
    rw [launches_append]
    omega
  created := by
    intro id
    have a := h1.created id
    have b := h2.created id
    rw [creations_append]
    omega
  wg := by rw [h2.wg, h1.wg, wgAdds_append]; omega
  size := by have a := h1.size; have b := h2.size; omega
  adds := by rw [wgAdds_append, goCount_append, h1.adds, h2.adds]
  allocs := by have a := h1.allocs; have b := h2.allocs; omega
  goes := by
    intro r hr
    rcases List.mem_append.1 hr with h | h
    · exact h2.keep _ _ (h1.goes r h)
    · exact h2.goes r h
  quiet := by
    intro e he
    rcases List.mem_append.1 he with h | h
    · exact h1.quiet e h
    · exact h2.quiet e h

theorem Registry.keys_append_single (m : Registry) (id : String) (v : ServiceRunner) :
    Registry.keys (m ++ [(id, v)]) = m.keys ++ [id] := by
  simp [Registry.keys]

theorem startStep_of_some (s : singleton) (service : Service) (r0 : ServiceRunner)
    (h : s.State.get (service.ID s.UserData) = some r0) :
    startStep s service = (s, [Effect.lookup (service.ID s.UserData)]) := by
  simp only [startStep, h]

theorem startStep_of_none (s : singleton) (service : Service)
    (h : s.State.get (service.ID s.UserData) = none) :
    startStep s service =
      ({ s with
          State := s.State ++ [(service.ID s.UserData, NewServiceRunner service s.UserData s.allocs)],
          wg := s.wg + 1, allocs := s.allocs + 1 },
        [Effect.lookup (service.ID s.UserData),
          Effect.newRunner (NewServiceRunner service s.UserData s.allocs),
          Effect.insert (service.ID s.UserData) (NewServiceRunner service s.UserData s.allocs),
          Effect.wgAdd 1, Effect.go (NewServiceRunner service s.UserData s.allocs)]) := by
  simp only [startStep, h, Registry.set_of_get_none _ _ _ h]

theorem startStep_grows (s : singleton) (service : Service) :
    Grows s (startStep s service).1 (startStep s service).2 := by
  cases hget : s.State.get (service.ID s.UserData) with
  | some r0 =>
    rw [startStep_of_some s service r0 hget]
    exact
      { Grows.refl s with
        launched := by intro id; simp [launches]
        created := by intro id; simp [creations]
        wg := by simp [wgAdds]
        adds := by simp [wgAdds, goCount]
        goes := by intro r h; simp at h
        quiet := by intro e h; simp at h; subst h; rfl }
  | none =>
    have hnot : service.ID s.UserData ∉ s.State.keys := (Registry.get_eq_none_iff _ _).1 hget
    rw [startStep_of_none s service hget]
    refine
      { userData := rfl
        mu := rfl
        terminating := rfl
        keep := ?_
        nodup := ?_
        ids := ?_
        launched := ?_
        created := ?_
        wg := by simp [wgAdds]
        size := by simp; omega
        adds := by simp [wgAdds, goCount]
        allocs := by simp; omega
        goes := ?_
        quiet := ?_ }
    · intro id r0 h
      simp only [Registry.get_append_single, h]
    · intro h
      simp only [Registry.keys, List.map_append, List.map_cons, List.map_nil]
      rw [List.nodup_append]
      refine ⟨h, by simp, ?_⟩
      intro a ha hb
      simp only [List.mem_singleton] at hb
      subst hb
      exact hnot ha
    · intro h p hp
      rcases List.mem_append.1 hp with h1 | h1
      · exact h p h1
      · simp only [List.mem_singleton] at h1
        subst h1
        rfl
    · intro id
      by_cases hid : id = service.ID s.UserData
      · subst hid
        simp [launches, NewServiceRunner, hnot, Registry.keys_append_single]
      · have hid2 : ¬ service.ID s.UserData = id := fun e => hid e.symm
        simp [launches, NewServiceRunner, Registry.keys_append_single, hid, hid2]
    · intro id
      by_cases hid : id = service.ID s.UserData
      · subst hid
        simp [creations, NewServiceRunner, hnot, Registry.keys_append_single]
      · have hid2 : ¬ service.ID s.UserData = id := fun e => hid e.symm
        simp [creations, NewServiceRunner, Registry.keys_append_single, hid, hid2]
    · intro r hr
      simp at hr
      subst hr
      simp [Registry.get_append_single, NewServiceRunner, hget]
    · intro e he
      simp at he
      rcases he with h | h | h | h | h <;> subst h <;> rfl

theorem startStep_covers (s : singleton) (service : Service) :
    service.ID s.UserData ∈ (startStep s service).1.State.keys := by
  cases hget : s.State.get (service.ID s.UserData) with
  | some r0 =>
    rw [startStep_of_some s service r0 hget]
    exact Registry.mem_keys_of_get _ _ _ hget
  | none =>
    rw [startStep_of_none s service hget]
    simp [Registry.keys]

theorem startLoop_grows (s : singleton) (services : List Service) :
    Grows s (startLoop s services).1 (startLoop s services).2 := by
  induction services generalizing s with
  | nil => exact Grows.refl s
  | cons service rest ih =>
    simp only [startLoop]
    exact (startStep_grows s service).trans (ih _)

theorem startLoop_covers (s : singleton) (services : List Service) (service : Service)
    (h : service ∈ services) :
    service.ID s.UserData ∈ (startLoop s services).1.State.keys := by
  induction services generalizing s with
  | nil => simp at h
  | cons first rest ih =>
    simp only [startLoop]
    rcases List.mem_cons.1 h with h1 | h1
    · subst h1
      exact (startLoop_grows _ rest).mono _ (startStep_covers s service)
    · have := ih (startStep s first).1 h1
      rwa [(startStep_grows s first).userData] at this

theorem Start_of_ready (s : singleton) (services : List Service)
    (hmu : s.mu = false) (hterm : s.terminating = false) :
    Start s services =
      { state := { (startLoop { s with mu := true } services).1 with mu := false },
        trace := [Effect.lock, Effect.readTerminating]
          ++ (startLoop { s with mu := true } services).2 ++ [Effect.unlock],
        returned := true } := by
  simp [Start, hmu, hterm]

theorem Start_grows (s : singleton) (services : List Service)
    (hmu : s.mu = false) (hterm : s.terminating = false) :
    Grows s (Start s services).state (Start s services).trace := by
  rw [Start_of_ready s services hmu hterm]
  have G := startLoop_grows { s with mu := true } services
  exact
    { userData := G.userData
      mu := hmu.symm
      terminating := G.terminating
      keep := G.keep
      nodup := G.nodup
      ids := G.ids
      launched := by
        intro id
        have := G.launched id
        simpa [launches_append, launches] using this
      created := by
        intro id
        have := G.created id
        simpa [creations_append, creations] using this
      wg := by
        have := G.wg
        simpa [wgAdds_append, wgAdds] using this
      size := G.size
      adds := by
        have := G.adds
        simpa [wgAdds_append, goCount_append, wgAdds, goCount] using this
      allocs := G.allocs
      goes := by
        intro r hr
        have : Effect.go r ∈ (startLoop { s with mu := true } services).2 := by
          simpa using hr
        exact G.goes r this
      quiet := by
        intro e he
        simp only [List.mem_append, List.mem_cons, List.mem_singleton, List.not_mem_nil,
          or_false] at he
        rcases he with (h | h) | h
        · rcases h with h | h <;> subst h <;> rfl
        · exact G.quiet e h
        · subst h; rfl }

theorem Start_covers (s : singleton) (services : List Service)
    (hmu : s.mu = false) (hterm : s.terminating = false) (service : Service)
    (h : service ∈ services) :
    service.ID s.UserData ∈ (Start s services).state.State.keys := by
  rw [Start_of_ready s services hmu hterm]
  exact startLoop_covers { s with mu := true } services service h

theorem Start_returned (s : singleton) (services : List Service) (hmu : s.mu = false) :
    (Start s services).returned = true := by
  unfold Start
  simp only [hmu]
  cases s.terminating <;> simp

theorem StartAll_nil (s : singleton) :
    StartAll s [] = { state := s, trace := [], returned := true } := rfl

theorem StartAll_cons (s : singleton) (b : List Service) (bs : List (List Service))
    (hmu : s.mu = false) :
    StartAll s (b :: bs) =
      { state := (StartAll (Start s b).state bs).state,
        trace := (Start s b).trace ++ (StartAll (Start s b).state bs).trace,
        returned := (StartAll (Start s b).state bs).returned } := by
  simp [StartAll, runCalls, Call.run, Start_returned s b hmu]

theorem StartAll_grows (s : singleton) (batches : List (List Service))
    (hmu : s.mu = false) (hterm : s.terminating = false) :
    Grows s (StartAll s batches).state (StartAll s batches).trace ∧
      (StartAll s batches).returned = true ∧
      ∀ b ∈ batches, ∀ service ∈ b,
        service.ID s.UserData ∈ (StartAll s batches).state.State.keys := by
  induction batches generalizing s with
  | nil =>
    rw [StartAll_nil]
    exact ⟨Grows.refl s, rfl, by simp⟩
  | cons b bs ih =>
    have G1 := Start_grows s b hmu hterm
    obtain ⟨G2, hret, hcov⟩ :=
      ih (Start s b).state (G1.mu.trans hmu) (G1.terminating.trans hterm)
    rw [StartAll_cons s b bs hmu]
    refine ⟨G1.trans G2, hret, ?_⟩
    intro b2 hb2 service hsvc
    rcases List.mem_cons.1 hb2 with h | h
    · subst h
      exact G2.mono _ (Start_covers s b2 hmu hterm service hsvc)
    · have := hcov b2 h service hsvc
      rwa [G1.userData] at this

theorem exists_go_of_launches (id : String) (t : List Effect) (h : 0 < launches id t) :
    ∃ r, Effect.go r ∈ t ∧ r.id = id := by
  unfold launches at h
  obtain ⟨e, he, hp⟩ := List.countP_pos_iff.1 h
  cases e with
  | go r => exact ⟨r, he, by simpa using hp⟩
  | _ => simp at hp

/-! ## Theorems about `Start` -/

/-- C1: from any state that is not terminating (mutex free, map keys unique), after
any sequence of `Start` calls every submitted service ID is in the registry
exactly once.  An ID that was not registered before the sequence had exactly one
ServiceRunner allocated and exactly one goroutine launched for it, the one the
registry holds; an ID that was registered keeps its ServiceRunner and has nothing
allocated or launched.  The WaitGroup counter grows by one per launch, which is
one per new registry entry. -/
theorem start_idempotent_registration (s : singleton) (batches : List (List Service))
    (hterm : s.terminating = false) (hmu : s.mu = false) (hkeys : s.State.keys.Nodup) :
    (StartAll s batches).returned = true ∧
    (StartAll s batches).state.State.keys.Nodup ∧
    (∀ b ∈ batches, ∀ service ∈ b, ∃ r,
      (StartAll s batches).state.State.get (service.ID s.UserData) = some r ∧
      (StartAll s batches).state.State.keys.count (service.ID s.UserData) = 1 ∧
      (service.ID s.UserData ∉ s.State.keys →
        creations (service.ID s.UserData) (StartAll s batches).trace = 1 ∧
        launches (service.ID s.UserData) (StartAll s batches).trace = 1 ∧
        Effect.go r ∈ (StartAll s batches).trace)) ∧
    (∀ id r0, s.State.get id = some r0 →
      (StartAll s batches).state.State.get id = some r0 ∧
      creations id (StartAll s batches).trace = 0 ∧
      launches id (StartAll s batches).trace = 0) ∧
    (StartAll s batches).state.wg = s.wg + wgAdds (StartAll s batches).trace ∧
    wgAdds (StartAll s batches).trace = goCount (StartAll s batches).trace ∧
    (StartAll s batches).state.wg + s.State.length
      = s.wg + (StartAll s batches).state.State.length := by
  obtain ⟨G, hret, hcov⟩ := StartAll_grows s batches hmu hterm
  have hnd := G.nodup hkeys
  refine ⟨hret, hnd, ?_, ?_, G.wg, G.adds, G.size⟩
  · intro b hb service hsvc
    have hin := hcov b hb service hsvc
    cases hget : (StartAll s batches).state.State.get (service.ID s.UserData) with
    | none => exact absurd hin ((Registry.get_eq_none_iff _ _).1 hget)
    | some r =>
      refine ⟨r, rfl, List.count_eq_one_of_mem hnd hin, ?_⟩
      intro hnew
      have hl := G.launched (service.ID s.UserData)
      have hc := G.created (service.ID s.UserData)
      simp only [hnew, hin, if_true, if_false, Nat.add_zero] at hl hc
      refine ⟨hc, hl, ?_⟩
      obtain ⟨r2, hr2, hid⟩ := exists_go_of_launches (service.ID s.UserData) (StartAll s batches).trace
        (by rw [hl]; exact Nat.one_pos)
      have := G.goes r2 hr2
      rw [hid, hget] at this
      cases this
      exact hr2
  · intro id r0 h0
    have hin0 := Registry.mem_keys_of_get _ _ _ h0
    have hin := G.mono id hin0
    have hl := G.launched id
    have hc := G.created id
    simp only [hin0, hin, if_true] at hl hc
    exact ⟨G.keep id r0 h0, by omega, by omega⟩

/-- The statement of `start_idempotent_registration` on a fresh supervisor given
two batches, the first naming "apid" twice and the second naming it again. -/
theorem start_idempotent_registration_witness :
    (Services ⟨""⟩).terminating = false ∧ (Services ⟨""⟩).mu = false ∧
    (Services ⟨""⟩).State.keys.Nodup ∧
    (StartAll (Services ⟨""⟩)
        [[⟨fun _ => "apid"⟩, ⟨fun _ => "apid"⟩, ⟨fun _ => "containerd"⟩],
          [⟨fun _ => "apid"⟩, ⟨fun _ => "udevd"⟩]]).state.State
      = [("apid", ⟨0, "apid"⟩), ("containerd", ⟨1, "containerd"⟩), ("udevd", ⟨2, "udevd"⟩)] ∧
    (StartAll (Services ⟨""⟩)
        [[⟨fun _ => "apid"⟩, ⟨fun _ => "apid"⟩, ⟨fun _ => "containerd"⟩],
          [⟨fun _ => "apid"⟩, ⟨fun _ => "udevd"⟩]]).state.wg + 0
      = 0 + (StartAll (Services ⟨""⟩)
        [[⟨fun _ => "apid"⟩, ⟨fun _ => "apid"⟩, ⟨fun _ => "containerd"⟩],
          [⟨fun _ => "apid"⟩, ⟨fun _ => "udevd"⟩]]).state.State.length :=
  ⟨rfl, rfl, by decide, by decide,
    (start_idempotent_registration (Services ⟨""⟩)
      [[⟨fun _ => "apid"⟩, ⟨fun _ => "apid"⟩, ⟨fun _ => "containerd"⟩],
        [⟨fun _ => "apid"⟩, ⟨fun _ => "udevd"⟩]] rfl rfl (by decide)).2.2.2.2.2.2⟩

/-! ## Calls on a terminating supervisor -/

theorem Start_terminating (s : singleton) (services : List Service)
    (hterm : s.terminating = true) :
    Start s services =
      if s.mu then { state := s, trace := [], returned := false }
      else { state := { s with mu := true },
             trace := [Effect.lock, Effect.readTerminating], returned := true } := by
  simp [Start, hterm]

theorem Shutdown_terminating (s : singleton) (range1 range2 : Registry)
    (hterm : s.terminating = true) :
    Shutdown s range1 range2 =
      if s.mu then { state := s, trace := [], returned := false }
      else { state := { s with mu := false },
             trace := [Effect.lock, Effect.readTerminating, Effect.unlock],
             returned := true } := by
  simp [Shutdown, hterm]

/-- What a call on a terminating supervisor leaves untouched. -/
theorem Call.run_terminating (s : singleton) (c : Call) (hterm : s.terminating = true) :
    (c.run s).state.State = s.State ∧ (c.run s).state.terminating = true ∧
    (c.run s).state.wg = s.wg ∧ (c.run s).state.allocs = s.allocs ∧
    ∀ e ∈ (c.run s).trace, e.registers = false := by
  cases c with
  | start services =>
    simp only [Call.run, Start_terminating s services hterm]
    cases s.mu
    · refine ⟨rfl, hterm, rfl, rfl, ?_⟩
      intro e he
      simp at he
      rcases he with h | h <;> subst h <;> rfl
    · exact ⟨rfl, hterm, rfl, rfl, by simp⟩
  | shutdown range1 range2 =>
    simp only [Call.run, Shutdown_terminating s range1 range2 hterm]
    cases s.mu
    · refine ⟨rfl, hterm, rfl, rfl, ?_⟩
      intro e he
      simp at he
      rcases he with h | h | h <;> subst h <;> rfl
    · exact ⟨rfl, hterm, rfl, rfl, by simp⟩

theorem runCalls_terminating (s : singleton) (calls : List Call)
    (hterm : s.terminating = true) :
    (runCalls s calls).state.State = s.State ∧ (runCalls s calls).state.terminating = true ∧
    (runCalls s calls).state.wg = s.wg ∧ (runCalls s calls).state.allocs = s.allocs ∧
    ∀ e ∈ (runCalls s calls).trace, e.registers = false := by
  induction calls generalizing s with
  | nil => exact ⟨rfl, hterm, rfl, rfl, by simp [runCalls]⟩
  | cons c rest ih =>
    obtain ⟨h1, h2, h3, h4, h5⟩ := Call.run_terminating s c hterm
    simp only [runCalls]
    cases hret : (c.run s).returned
    · simpa using ⟨h1, h2, h3, h4, h5⟩
    · obtain ⟨k1, k2, k3, k4, k5⟩ := ih (c.run s).state h2
      simp only [if_true]
      refine ⟨k1.trans h1, k2, k3.trans h3, k4.trans h4, ?_⟩
      intro e he
      rcases List.mem_append.1 he with h | h
      · exact h5 e h
      · exact k5 e h

theorem wave1_cons_pos (k : String) (v : ServiceRunner) (rest : Registry)
    (hk : k ≠ "containerd" ∧ k ≠ "udevd") :
    wave1 ((k, v) :: rest) = Effect.stop v :: wave1 rest := by
  rw [wave1, if_pos hk]

theorem wave1_cons_neg (k : String) (v : ServiceRunner) (rest : Registry)
    (hk : ¬ (k ≠ "containerd" ∧ k ≠ "udevd")) :
    wave1 ((k, v) :: rest) = wave1 rest := by
  rw [wave1, if_neg hk]

theorem mem_wave1 (m : Registry) (e : Effect) (h : e ∈ wave1 m) :
    ∃ p ∈ m, p.1 ≠ "containerd" ∧ p.1 ≠ "udevd" ∧ e = Effect.stop p.2 := by
  induction m with
  | nil => simp [wave1] at h
  | cons q rest ih =>
    obtain ⟨k, v⟩ := q
    by_cases hk : k ≠ "containerd" ∧ k ≠ "udevd"
    · rw [wave1_cons_pos k v rest hk] at h
      rcases List.mem_cons.1 h with h1 | h1
      · exact ⟨(k, v), List.mem_cons_self _ _, hk.1, hk.2, h1⟩
      · obtain ⟨p, hp, hrest⟩ := ih h1
        exact ⟨p, List.mem_cons_of_mem _ hp, hrest⟩
    · rw [wave1_cons_neg k v rest hk] at h
      obtain ⟨p, hp, hrest⟩ := ih h
      exact ⟨p, List.mem_cons_of_mem _ hp, hrest⟩

theorem wave2_eq_map (m : Registry) : wave2 m = m.map (fun p => Effect.stop p.2) := by
  induction m with
  | nil => rfl
  | cons q rest ih =>
    obtain ⟨k, v⟩ := q
    simp [wave2, ih]

theorem wave1_eq_wave2_filter (m : Registry) :
    wave1 m = wave2 (m.filter (fun p => decide (p.1 ≠ "containerd" ∧ p.1 ≠ "udevd"))) := by
  induction m with
  | nil => rfl
  | cons q rest ih =>
    obtain ⟨k, v⟩ := q
    by_cases hk : k ≠ "containerd" ∧ k ≠ "udevd"
    · rw [wave1_cons_pos k v rest hk, List.filter_cons_of_pos (by simpa using hk), ih]
      rfl
    · rw [wave1_cons_neg k v rest hk, List.filter_cons_of_neg (by simpa using hk), ih]

theorem Shutdown_of_ready (s : singleton) (range1 range2 : Registry)
    (hmu : s.mu = false) (hterm : s.terminating = false) :
    Shutdown s range1 range2 =
      { state := { s with terminating := true, mu := false, wg := 0 },
        trace := [Effect.lock, Effect.readTerminating, Effect.setTerminating]
          ++ wave1 range1 ++ [Effect.sleep ShutdownHackySleep] ++ wave2 range2
          ++ [Effect.unlock, Effect.wgWait],
        returned := true } := by
  simp [Shutdown, hmu, hterm]

theorem Shutdown_trace_registers (s : singleton) (range1 range2 : Registry) :
    ∀ e ∈ (Shutdown s range1 range2).trace, e.registers = false := by
  intro e he
  cases hmu : s.mu
  · cases hterm : s.terminating
    · rw [Shutdown_of_ready s range1 range2 hmu hterm] at he
      simp only [List.mem_append, List.mem_cons, List.mem_singleton, List.not_mem_nil,
        or_false, wave2_eq_map, List.mem_map] at he
      rcases he with ((((h | h | h) | h) | h) | h) | h | h
      · subst h; rfl
      · subst h; rfl
      · subst h; rfl
      · obtain ⟨p, _, _, _, hp⟩ := mem_wave1 _ _ h
        subst hp; rfl
      · subst h; rfl
      · obtain ⟨p, _, hp⟩ := h
        subst hp; rfl
      · subst h; rfl
      · subst h; rfl
    · exact (Call.run_terminating s (Call.shutdown range1 range2) hterm).2.2.2.2 e he
  · simp [Shutdown, hmu] at he

theorem runCalls_after_shutdown (s0 : singleton) (range1 range2 : Registry)
    (calls : List Call) :
    (runCalls s0 (Call.shutdown range1 range2 :: calls)).state.State = s0.State ∧
    ∀ e ∈ (runCalls s0 (Call.shutdown range1 range2 :: calls)).trace, e.registers = false := by
  cases hterm : s0.terminating
  · cases hmu : s0.mu
    · have hs := Shutdown_of_ready s0 range1 range2 hmu hterm
      have hreg := Shutdown_trace_registers s0 range1 range2
      obtain ⟨k1, _, _, _, k5⟩ :=
        runCalls_terminating (Shutdown s0 range1 range2).state calls (by rw [hs])
      have hret : (Shutdown s0 range1 range2).returned = true := by rw [hs]
      have hst : (Shutdown s0 range1 range2).state.State = s0.State := by rw [hs]
      simp only [runCalls, Call.run, hret, if_true]
      refine ⟨k1.trans hst, ?_⟩
      intro e he
      rcases List.mem_append.1 he with h | h
      · exact hreg e h
      · exact k5 e h
    · simp [runCalls, Call.run, Shutdown, hmu]
  · obtain ⟨k1, _, _, _, k5⟩ :=
      runCalls_terminating s0 (Call.shutdown range1 range2 :: calls) hterm
    exact ⟨k1, k5⟩

/-- On a supervisor whose `terminating` flag is set, `Start` leaves the registry,
the WaitGroup counter and the number of allocated ServiceRunners as they were and
performs no allocation, registry write, `wg.Add` or goroutine launch; it returns
when the mutex is free at the call.  The same holds for any sequence of later
calls, and so for every sequence of calls that follows a `Shutdown`. -/
theorem Start_terminating_inert (s : singleton) (services : List Service)
    (s0 : singleton) (range1 range2 : Registry) (calls : List Call)
    (hterm : s.terminating = true) :
    (s.mu = false → (Start s services).returned = true) ∧
    (Start s services).state.State = s.State ∧
    (Start s services).state.wg = s.wg ∧
    (Start s services).state.allocs = s.allocs ∧
    (Start s services).state.terminating = true ∧
    (∀ e ∈ (Start s services).trace, e.registers = false) ∧
    (runCalls s calls).state.State = s.State ∧
    (∀ e ∈ (runCalls s calls).trace, e.registers = false) ∧
    (runCalls s0 (Call.shutdown range1 range2 :: calls)).state.State = s0.State ∧
    (∀ e ∈ (runCalls s0 (Call.shutdown range1 range2 :: calls)).trace,
      e.registers = false) := by
  obtain ⟨h1, h2, h3, h4, h5⟩ := Call.run_terminating s (Call.start services) hterm
  obtain ⟨k1, _, _, _, k5⟩ := runCalls_terminating s calls hterm
  obtain ⟨a1, a2⟩ := runCalls_after_shutdown s0 range1 range2 calls
  exact ⟨fun hmu => Start_returned s services hmu, h1, h3, h4, h2, h5, k1, k5, a1, a2⟩

/-- C3 fails on the code: on a supervisor that registered "containerd", was shut
down and then refused a `Start` for "apid", the `terminating` flag is set and the
mutex is still held by that refused `Start`; a further `Start` for "kubelet"
blocks on `Lock` and never returns, where the claim has it return.  It performs no
effect and the registry stays as it was. -/
theorem start_never_returns_after_refused_start :
    (runCalls (Services ⟨""⟩)
      [Call.start [⟨fun _ => "containerd"⟩],
        Call.shutdown [("containerd", ⟨0, "containerd"⟩)] [("containerd", ⟨0, "containerd"⟩)],
        Call.start [⟨fun _ => "apid"⟩]]).returned = true ∧
    (runCalls (Services ⟨""⟩)
      [Call.start [⟨fun _ => "containerd"⟩],
        Call.shutdown [("containerd", ⟨0, "containerd"⟩)] [("containerd", ⟨0, "containerd"⟩)],
        Call.start [⟨fun _ => "apid"⟩]]).state
      = { UserData := ⟨""⟩, State := [("containerd", ⟨0, "containerd"⟩)], mu := true, wg := 0,
          terminating := true, allocs := 1 } ∧
    Start
      { UserData := ⟨""⟩, State := [("containerd", ⟨0, "containerd"⟩)], mu := true, wg := 0,
        terminating := true, allocs := 1 }
      [⟨fun _ => "kubelet"⟩]
      = { state :=
            { UserData := ⟨""⟩, State := [("containerd", ⟨0, "containerd"⟩)], mu := true,
              wg := 0, terminating := true, allocs := 1 },
          trace := [], returned := false } := by
  decide

/-- C4 (what the code does where the claim fails): on a supervisor whose
`terminating` flag is set and whose mutex is free, `Start` returns with the
mutex still held, and every `Start` or `Shutdown` called afterwards blocks on
`Lock` and never returns. -/
theorem start_terminating_returns_locked (s : singleton) (services : List Service)
    (hmu : s.mu = false) (hterm : s.terminating = true) :
    (Start s services).returned = true ∧
    (Start s services).state.mu = true ∧
    (∀ later, (Start (Start s services).state later).returned = false) ∧
    (∀ range1 range2, (Shutdown (Start s services).state range1 range2).returned = false) := by
  rw [Start_terminating s services hterm]
  simp [hmu, Start, Shutdown]

/-- The statement of `start_terminating_returns_locked` on a fresh supervisor
after one `Shutdown`. -/
theorem start_terminating_returns_locked_witness :
    (Shutdown (Services ⟨""⟩) [] []).state.mu = false ∧
    (Shutdown (Services ⟨""⟩) [] []).state.terminating = true ∧
    (Start (Shutdown (Services ⟨""⟩) [] []).state [⟨fun _ => "kubelet"⟩]).returned = true ∧
    (Start (Shutdown (Services ⟨""⟩) [] []).state [⟨fun _ => "kubelet"⟩]).state.mu = true :=
  ⟨by decide, by decide,
    (start_terminating_returns_locked (Shutdown (Services ⟨""⟩) [] []).state
      [⟨fun _ => "kubelet"⟩] (by decide) (by decide)).1,
    (start_terminating_returns_locked (Shutdown (Services ⟨""⟩) [] []).state
      [⟨fun _ => "kubelet"⟩] (by decide) (by decide)).2.1⟩

/-- With the mutex free at the call, `Shutdown` on a supervisor whose
`terminating` flag is set takes the mutex, reads the flag, releases the mutex and
returns, leaving the state exactly as it was; two `Shutdown` calls in a row leave
the state the first one leaves and add only lock, read, unlock to its effects. -/
theorem Shutdown_terminating_noop (s : singleton) (range1 range2 range3 range4 : Registry)
    (hmu : s.mu = false) :
    (s.terminating = true →
      Shutdown s range1 range2 =
        { state := s, trace := [Effect.lock, Effect.readTerminating, Effect.unlock],
          returned := true }) ∧
    (runCalls s [Call.shutdown range1 range2, Call.shutdown range3 range4]).returned = true ∧
    (runCalls s [Call.shutdown range1 range2, Call.shutdown range3 range4]).state
      = (Shutdown s range1 range2).state ∧
    (runCalls s [Call.shutdown range1 range2, Call.shutdown range3 range4]).trace
      = (Shutdown s range1 range2).trace
        ++ [Effect.lock, Effect.readTerminating, Effect.unlock] ∧
    stops (runCalls s [Call.shutdown range1 range2, Call.shutdown range3 range4]).trace
      = stops (Shutdown s range1 range2).trace := by
  have key : ∀ (t : singleton) (r1 r2 : Registry), t.mu = false → t.terminating = true →
      Shutdown t r1 r2 =
        { state := t, trace := [Effect.lock, Effect.readTerminating, Effect.unlock],
          returned := true } := by
    intro t r1 r2 h1 h2
    rw [Shutdown_terminating t r1 r2 h2]
    cases t
    simp_all
  refine ⟨fun hterm => key s range1 range2 hmu hterm, ?_⟩
  have hfirst : (Shutdown s range1 range2).returned = true ∧
      (Shutdown s range1 range2).state.mu = false ∧
      (Shutdown s range1 range2).state.terminating = true := by
    cases hterm : s.terminating
    · rw [Shutdown_of_ready s range1 range2 hmu hterm]
      exact ⟨rfl, rfl, rfl⟩
    · rw [key s range1 range2 hmu hterm]
      exact ⟨rfl, hmu, hterm⟩
  obtain ⟨hret, hmu2, hterm2⟩ := hfirst
  have hsecond := key (Shutdown s range1 range2).state range3 range4 hmu2 hterm2
  simp [runCalls, Call.run, hret, hsecond, stops]

/-- C5 fails on the code: on a supervisor that registered "containerd", was shut
down and then refused a `Start` for "apid", the `terminating` flag is set and the
mutex is still held by that refused `Start`; a further `Shutdown` blocks on `Lock`
and never returns, and the mutex stays held, where the claim has it return with
the lock released. -/
theorem shutdown_never_returns_after_refused_start :
    (runCalls (Services ⟨""⟩)
      [Call.start [⟨fun _ => "containerd"⟩],
        Call.shutdown [("containerd", ⟨0, "containerd"⟩)] [("containerd", ⟨0, "containerd"⟩)],
        Call.start [⟨fun _ => "apid"⟩]]).returned = true ∧
    (runCalls (Services ⟨""⟩)
      [Call.start [⟨fun _ => "containerd"⟩],
        Call.shutdown [("containerd", ⟨0, "containerd"⟩)] [("containerd", ⟨0, "containerd"⟩)],
        Call.start [⟨fun _ => "apid"⟩]]).state.terminating = true ∧
    (Shutdown
      (runCalls (Services ⟨""⟩)
        [Call.start [⟨fun _ => "containerd"⟩],
          Call.shutdown [("containerd", ⟨0, "containerd"⟩)] [("containerd", ⟨0, "containerd"⟩)],
          Call.start [⟨fun _ => "apid"⟩]]).state
      [("containerd", ⟨0, "containerd"⟩)] [("containerd", ⟨0, "containerd"⟩)]).returned
      = false ∧
    (Shutdown
      (runCalls (Services ⟨""⟩)
        [Call.start [⟨fun _ => "containerd"⟩],
          Call.shutdown [("containerd", ⟨0, "containerd"⟩)] [("containerd", ⟨0, "containerd"⟩)],
          Call.start [⟨fun _ => "apid"⟩]]).state
      [("containerd", ⟨0, "containerd"⟩)] [("containerd", ⟨0, "containerd"⟩)]).state.mu
      = true := by
  decide

/-- Calls keep the registry well formed. -/
theorem Call.run_WF (s : singleton) (c : Call) (h : s.State.WF) : (c.run s).state.State.WF := by
  cases c with
  | start services =>
    simp only [Call.run]
    cases hmu : s.mu
    · cases hterm : s.terminating
      · have G := Start_grows s services hmu hterm
        exact ⟨G.nodup h.1, G.ids h.2⟩
      · rw [(Call.run_terminating s (Call.start services) hterm).1.symm] at h
        exact h
    · simpa [Start, hmu] using h
  | shutdown range1 range2 =>
    simp only [Call.run]
    cases hmu : s.mu
    · cases hterm : s.terminating
      · rw [Shutdown_of_ready s range1 range2 hmu hterm]
        exact h
      · rw [(Call.run_terminating s (Call.shutdown range1 range2) hterm).1.symm] at h
        exact h
    · simpa [Shutdown, hmu] using h

/-- Every registry reached from a fresh supervisor is well formed. -/
theorem runCalls_WF (s : singleton) (calls : List Call) (h : s.State.WF) :
    (runCalls s calls).state.State.WF := by
  induction calls generalizing s with
  | nil => exact h
  | cons c rest ih =>
    simp only [runCalls]
    cases hret : (c.run s).returned
    · simpa using Call.run_WF s c h
    · simpa using ih (c.run s).state (Call.run_WF s c h)

theorem Services_WF (data : UserData) : (Services data).State.WF := by
  simp [Services, Registry.WF, Registry.keys]

theorem Registry.WF.values_nodup {m : Registry} (h : m.WF) : (m.map Prod.snd).Nodup := by
  have hk : m.keys = (m.map Prod.snd).map ServiceRunner.id := by
    simp only [Registry.keys, List.map_map]
    apply List.map_congr_left
    intro p hp
    exact (h.2 p hp).symm
  have := h.1
  rw [hk] at this
  exact List.Nodup.of_map _ this

theorem count_stop_wave2 (m : Registry) (r : ServiceRunner) :
    (wave2 m).count (Effect.stop r) = (m.map Prod.snd).count r := by
  have hinj : Function.Injective Effect.stop := by
    intro a b hab
    cases hab
    rfl
  rw [wave2_eq_map, ← List.count_map_of_injective (m.map Prod.snd) Effect.stop hinj r,
    List.map_map]
  rfl

/-- In the second loop every registered runner is signalled once. -/
theorem count_wave2_of_perm (m range2 : Registry) (hwf : m.WF) (hp : range2.Perm m)
    (p : String × ServiceRunner) (hmem : p ∈ m) :
    (wave2 range2).count (Effect.stop p.2) = 1 := by
  rw [count_stop_wave2, (hp.map Prod.snd).count_eq]
  exact List.count_eq_one_of_mem hwf.values_nodup (List.mem_map_of_mem Prod.snd hmem)

/-- In the first loop every registered runner other than "containerd" and "udevd"
is signalled once, and those two are not signalled. -/
theorem count_wave1_of_perm (m range1 : Registry) (hwf : m.WF) (hp : range1.Perm m)
    (p : String × ServiceRunner) (hmem : p ∈ m) :
    (wave1 range1).count (Effect.stop p.2)
      = if p.1 = "containerd" ∨ p.1 = "udevd" then 0 else 1 := by
  rw [wave1_eq_wave2_filter, count_stop_wave2,
    ((hp.filter _).map Prod.snd).count_eq]
  have hsub : ((m.filter (fun q => decide (q.1 ≠ "containerd" ∧ q.1 ≠ "udevd"))).map
      Prod.snd).Nodup :=
    List.Nodup.sublist ((List.filter_sublist m).map Prod.snd) hwf.values_nodup
  by_cases hf : p.1 = "containerd" ∨ p.1 = "udevd"
  · rw [if_pos hf]
    apply List.count_eq_zero_of_not_mem
    intro hin
    obtain ⟨q, hq, hq2⟩ := List.mem_map.1 hin
    obtain ⟨hqm, hqk⟩ := List.mem_filter.1 hq
    have hk : q.1 = p.1 := by
      rw [← hwf.2 q hqm, ← hwf.2 p hmem, hq2]
    rw [hk] at hqk
    simp only [ne_eq, decide_eq_true_eq] at hqk
    rcases hf with h | h
    · exact hqk.1 h
    · exact hqk.2 h
  · rw [if_neg hf]
    apply List.count_eq_one_of_mem hsub
    apply List.mem_map_of_mem Prod.snd
    apply List.mem_filter.2
    refine ⟨hmem, ?_⟩
    simp only [ne_eq, decide_eq_true_eq]
    exact ⟨fun h => hf (Or.inl h), fun h => hf (Or.inr h)⟩

theorem mem_wave2 (m : Registry) (e : Effect) (h : e ∈ wave2 m) :
    ∃ p ∈ m, e = Effect.stop p.2 := by
  rw [wave2_eq_map] at h
  obtain ⟨p, hp, rfl⟩ := List.mem_map.1 h
  exact ⟨p, hp, rfl⟩

/-- C2: in the first `Shutdown` on a well-formed registry (whatever order the
first `range` loop visits it in), the effects split around the one settling
sleep of `ShutdownHackySleep`: before it, every registered ServiceRunner other
than "containerd" and "udevd" has been sent its stop request, and no stop request
has gone to the runner registered as "containerd" or "udevd", nor to any runner
carrying one of these IDs. -/
theorem shutdown_ordering (s : singleton) (range1 range2 : Registry)
    (hmu : s.mu = false) (hterm : s.terminating = false) (hwf : s.State.WF)
    (h1 : range1.Perm s.State) :
    ∃ before after,
      (Shutdown s range1 range2).trace
        = before ++ Effect.sleep ShutdownHackySleep :: after ∧
      (∀ e ∈ before ++ after, ∀ d, e ≠ Effect.sleep d) ∧
      (∀ p ∈ s.State, p.1 ≠ "containerd" → p.1 ≠ "udevd" → Effect.stop p.2 ∈ before) ∧
      (∀ p ∈ s.State, p.1 = "containerd" ∨ p.1 = "udevd" → Effect.stop p.2 ∉ before) ∧
      (∀ r, Effect.stop r ∈ before → r.id ≠ "containerd" ∧ r.id ≠ "udevd") := by
  refine ⟨[Effect.lock, Effect.readTerminating, Effect.setTerminating] ++ wave1 range1,
    wave2 range2 ++ [Effect.unlock, Effect.wgWait], ?_, ?_, ?_, ?_, ?_⟩
  · rw [Shutdown_of_ready s range1 range2 hmu hterm]
    simp
  · intro e he d hd
    subst hd
    simp only [List.mem_append, List.mem_cons, List.mem_singleton, List.not_mem_nil,
      or_false] at he
    rcases he with (h | h) | h | h
    · simp at h
    · obtain ⟨p, _, _, _, hp⟩ := mem_wave1 _ _ h
      cases hp
    · obtain ⟨p, _, hp⟩ := mem_wave2 _ _ h
      cases hp
    · simp at h
  · intro p hp hc hu
    have hcount := count_wave1_of_perm s.State range1 hwf h1 p hp
    rw [if_neg (by simp [hc, hu])] at hcount
    apply List.mem_append_right
    exact List.count_pos_iff.1 (by omega)
  · intro p hp hf hin
    have hcount := count_wave1_of_perm s.State range1 hwf h1 p hp
    rw [if_pos hf] at hcount
    simp only [List.mem_append, List.mem_cons, List.mem_singleton, List.not_mem_nil,
      or_false, reduceCtorEq, false_or] at hin
    have := List.count_pos_iff.2 hin
    omega
  · intro r hin
    simp only [List.mem_append, List.mem_cons, List.mem_singleton, List.not_mem_nil,
      or_false, reduceCtorEq, false_or] at hin
    obtain ⟨p, hp, hc, hu, he⟩ := mem_wave1 _ _ hin
    cases he
    rw [hwf.2 p (h1.mem_iff.1 hp)]
    exact ⟨hc, hu⟩

/-- The statement of `shutdown_ordering` on a supervisor that has registered
"containerd", "udevd", "apid" and "kubelet", the first loop visiting them in
the opposite order. -/
theorem shutdown_ordering_witness :
    (StartAll (Services ⟨""⟩) [[⟨fun _ => "containerd"⟩, ⟨fun _ => "udevd"⟩],
      [⟨fun _ => "apid"⟩, ⟨fun _ => "kubelet"⟩]]).state.State.WF ∧
    List.Perm
      [("kubelet", ⟨3, "kubelet"⟩), ("apid", ⟨2, "apid"⟩), ("udevd", ⟨1, "udevd"⟩),
        ("containerd", ⟨0, "containerd"⟩)]
      (StartAll (Services ⟨""⟩) [[⟨fun _ => "containerd"⟩, ⟨fun _ => "udevd"⟩],
        [⟨fun _ => "apid"⟩, ⟨fun _ => "kubelet"⟩]]).state.State ∧
    ∃ before after,
      (Shutdown (StartAll (Services ⟨""⟩) [[⟨fun _ => "containerd"⟩, ⟨fun _ => "udevd"⟩],
          [⟨fun _ => "apid"⟩, ⟨fun _ => "kubelet"⟩]]).state
        [("kubelet", ⟨3, "kubelet"⟩), ("apid", ⟨2, "apid"⟩), ("udevd", ⟨1, "udevd"⟩),
          ("containerd", ⟨0, "containerd"⟩)]
        [("containerd", ⟨0, "containerd"⟩), ("udevd", ⟨1, "udevd"⟩), ("apid", ⟨2, "apid"⟩),
          ("kubelet", ⟨3, "kubelet"⟩)]).trace
        = before ++ Effect.sleep ShutdownHackySleep :: after ∧
      Effect.stop ⟨2, "apid"⟩ ∈ before ∧ Effect.stop ⟨3, "kubelet"⟩ ∈ before ∧
      Effect.stop ⟨0, "containerd"⟩ ∉ before ∧ Effect.stop ⟨1, "udevd"⟩ ∉ before := by
  refine ⟨by decide, by decide, ?_⟩
  obtain ⟨before, after, h1, _, h3, h4, _⟩ :=
    shutdown_ordering
      (StartAll (Services ⟨""⟩) [[⟨fun _ => "containerd"⟩, ⟨fun _ => "udevd"⟩],
        [⟨fun _ => "apid"⟩, ⟨fun _ => "kubelet"⟩]]).state
      [("kubelet", ⟨3, "kubelet"⟩), ("apid", ⟨2, "apid"⟩), ("udevd", ⟨1, "udevd"⟩),
        ("containerd", ⟨0, "containerd"⟩)]
      [("containerd", ⟨0, "containerd"⟩), ("udevd", ⟨1, "udevd"⟩), ("apid", ⟨2, "apid"⟩),
        ("kubelet", ⟨3, "kubelet"⟩)]
      (by decide) (by decide) (by decide) (by decide)
  exact ⟨before, after, h1,
    h3 ("apid", ⟨2, "apid"⟩) (by decide) (by decide) (by decide),
    h3 ("kubelet", ⟨3, "kubelet"⟩) (by decide) (by decide) (by decide),
    h4 ("containerd", ⟨0, "containerd"⟩) (by decide) (Or.inl rfl),
    h4 ("udevd", ⟨1, "udevd"⟩) (by decide) (Or.inr rfl)⟩

/-- C8: the first `Shutdown` on a well-formed registry sets `terminating`, and its
effects split around the settling sleep so that each registered ServiceRunner is
sent one stop request after the sleep, the runners registered as "containerd" and
"udevd" none before it and every other registered runner one before it: one
request in all for "containerd" and "udevd", two for every other; every stop
request goes to a registered runner. -/
theorem shutdown_signals_every_service (s : singleton) (range1 range2 : Registry)
    (hmu : s.mu = false) (hterm : s.terminating = false) (hwf : s.State.WF)
    (h1 : range1.Perm s.State) (h2 : range2.Perm s.State) :
    (Shutdown s range1 range2).state.terminating = true ∧
    Effect.setTerminating ∈ (Shutdown s range1 range2).trace ∧
    (∃ before after,
      (Shutdown s range1 range2).trace
        = before ++ Effect.sleep ShutdownHackySleep :: after ∧
      ∀ p ∈ s.State,
        before.count (Effect.stop p.2)
          = (if p.1 = "containerd" ∨ p.1 = "udevd" then 0 else 1) ∧
        after.count (Effect.stop p.2) = 1) ∧
    (∀ p ∈ s.State,
      (Shutdown s range1 range2).trace.count (Effect.stop p.2)
        = if p.1 = "containerd" ∨ p.1 = "udevd" then 1 else 2) ∧
    (∀ r, Effect.stop r ∈ (Shutdown s range1 range2).trace → ∃ k, (k, r) ∈ s.State) := by
  rw [Shutdown_of_ready s range1 range2 hmu hterm]
  refine ⟨rfl, by simp, ?_, ?_, ?_⟩
  · refine ⟨[Effect.lock, Effect.readTerminating, Effect.setTerminating] ++ wave1 range1,
      wave2 range2 ++ [Effect.unlock, Effect.wgWait], by simp, ?_⟩
    intro p hp
    have c1 := count_wave1_of_perm s.State range1 hwf h1 p hp
    have c2 := count_wave2_of_perm s.State range2 hwf h2 p hp
    simp [List.count_append, List.count_cons, c1, c2]
  · intro p hp
    have c1 := count_wave1_of_perm s.State range1 hwf h1 p hp
    have c2 := count_wave2_of_perm s.State range2 hwf h2 p hp
    simp only [List.count_append, List.count_cons, List.count_nil, c1, c2]
    by_cases hf : p.1 = "containerd" ∨ p.1 = "udevd" <;> simp [hf]
  · intro r hr
    simp only [List.mem_append, List.mem_cons, List.mem_singleton, List.not_mem_nil,
      or_false, reduceCtorEq, false_or, or_false] at hr
    rcases hr with h | h
    · obtain ⟨p, hp, _, _, he⟩ := mem_wave1 _ _ h
      cases he
      exact ⟨p.1, h1.mem_iff.1 hp⟩
    · obtain ⟨p, hp, he⟩ := mem_wave2 _ _ h
      cases he
      exact ⟨p.1, h2.mem_iff.1 hp⟩

/-- The statement of `shutdown_signals_every_service` on a supervisor that has
registered "containerd", "udevd" and "kubelet", the two loops visiting them in
different orders. -/
theorem shutdown_signals_every_service_witness :
    (Start (Services ⟨""⟩) [⟨fun _ => "containerd"⟩, ⟨fun _ => "udevd"⟩,
      ⟨fun _ => "kubelet"⟩]).state.State.WF ∧
    (Shutdown (Start (Services ⟨""⟩) [⟨fun _ => "containerd"⟩, ⟨fun _ => "udevd"⟩,
        ⟨fun _ => "kubelet"⟩]).state
      [("kubelet", ⟨2, "kubelet"⟩), ("containerd", ⟨0, "containerd"⟩), ("udevd", ⟨1, "udevd"⟩)]
      [("udevd", ⟨1, "udevd"⟩), ("kubelet", ⟨2, "kubelet"⟩),
        ("containerd", ⟨0, "containerd"⟩)]).trace.count (Effect.stop ⟨2, "kubelet"⟩) = 2 ∧
    (Shutdown (Start (Services ⟨""⟩) [⟨fun _ => "containerd"⟩, ⟨fun _ => "udevd"⟩,
        ⟨fun _ => "kubelet"⟩]).state
      [("kubelet", ⟨2, "kubelet"⟩), ("containerd", ⟨0, "containerd"⟩), ("udevd", ⟨1, "udevd"⟩)]
      [("udevd", ⟨1, "udevd"⟩), ("kubelet", ⟨2, "kubelet"⟩),
        ("containerd", ⟨0, "containerd"⟩)]).trace.count (Effect.stop ⟨0, "containerd"⟩) = 1 :=
  ⟨by decide,
    (shutdown_signals_every_service
      (Start (Services ⟨""⟩) [⟨fun _ => "containerd"⟩, ⟨fun _ => "udevd"⟩,
        ⟨fun _ => "kubelet"⟩]).state
      [("kubelet", ⟨2, "kubelet"⟩), ("containerd", ⟨0, "containerd"⟩), ("udevd", ⟨1, "udevd"⟩)]
      [("udevd", ⟨1, "udevd"⟩), ("kubelet", ⟨2, "kubelet"⟩), ("containerd", ⟨0, "containerd"⟩)]
      (by decide) (by decide) (by decide) (by decide) (by decide)).2.2.2.1
      ("kubelet", ⟨2, "kubelet"⟩) (by decide),
    (shutdown_signals_every_service
      (Start (Services ⟨""⟩) [⟨fun _ => "containerd"⟩, ⟨fun _ => "udevd"⟩,
        ⟨fun _ => "kubelet"⟩]).state
      [("kubelet", ⟨2, "kubelet"⟩), ("containerd", ⟨0, "containerd"⟩), ("udevd", ⟨1, "udevd"⟩)]
      [("udevd", ⟨1, "udevd"⟩), ("kubelet", ⟨2, "kubelet"⟩), ("containerd", ⟨0, "containerd"⟩)]
      (by decide) (by decide) (by decide) (by decide) (by decide)).2.2.2.1
      ("containerd", ⟨0, "containerd"⟩) (by decide)⟩

/-! ## The wait and the mutex -/

/-- C6 fails on the code: a supervisor with `terminating` set, the mutex free and
one run goroutine outstanding is what a second caller finds once the first
`Shutdown` has released the mutex and sits in `wg.Wait()`.  `Shutdown` called
there returns, its effects include no wait on the WaitGroup, and the goroutine is
still outstanding. -/
theorem shutdown_returns_without_wait :
    (Shutdown { (Start (Services ⟨""⟩) [⟨fun _ => "apid"⟩]).state with terminating := true }
      [] []).returned = true ∧
    Effect.wgWait ∉
      (Shutdown { (Start (Services ⟨""⟩) [⟨fun _ => "apid"⟩]).state with terminating := true }
        [] []).trace ∧
    (Shutdown { (Start (Services ⟨""⟩) [⟨fun _ => "apid"⟩]).state with terminating := true }
      [] []).state.wg = 1 := by
  decide

/-- C6 as amended: a `Shutdown` call that gets the mutex returns with the mutex
released.  When it finds `terminating` unset, its effects are lock, read and set
the flag, the first loop, the sleep, the second loop, unlock and then the wait on
the WaitGroup: the wait is its last effect, performed once, after the mutex is
released, and it leaves `terminating` set and no goroutine outstanding.  When it
finds `terminating` set, its effects are exactly lock, read the flag, unlock: it
returns at once without any wait and leaves the state, the WaitGroup counter
included, exactly as it was. -/
theorem shutdown_waits_unless_terminating (s : singleton) (range1 range2 : Registry)
    (hmu : s.mu = false) :
    (Shutdown s range1 range2).returned = true ∧
    (Shutdown s range1 range2).state.mu = false ∧
    (s.terminating = false →
      Shutdown s range1 range2 =
        { state := { s with terminating := true, wg := 0 },
          trace := [Effect.lock, Effect.readTerminating, Effect.setTerminating]
            ++ wave1 range1 ++ [Effect.sleep ShutdownHackySleep] ++ wave2 range2
            ++ [Effect.unlock, Effect.wgWait],
          returned := true } ∧
      ∃ body, (Shutdown s range1 range2).trace = body ++ [Effect.unlock, Effect.wgWait] ∧
        Effect.wgWait ∉ body ∧ Effect.unlock ∉ body) ∧
    (s.terminating = true →
      Shutdown s range1 range2 =
        { state := s, trace := [Effect.lock, Effect.readTerminating, Effect.unlock],
          returned := true }) := by
  have hs : ∀ t : singleton, t.mu = false → { t with mu := false } = t := by
    intro t ht
    cases t
    simp_all
  have hw1 : ∀ e ∈ wave1 range1, ∃ r, e = Effect.stop r := by
    intro e he
    obtain ⟨q, _, _, _, hq⟩ := mem_wave1 _ _ he
    exact ⟨q.2, hq⟩
  have hw2 : ∀ e ∈ wave2 range2, ∃ r, e = Effect.stop r := by
    intro e he
    obtain ⟨q, _, hq⟩ := mem_wave2 _ _ he
    exact ⟨q.2, hq⟩
  refine ⟨?_, ?_, ?_, ?_⟩
  · cases hterm : s.terminating
    · rw [Shutdown_of_ready s range1 range2 hmu hterm]
    · rw [Shutdown_terminating s range1 range2 hterm]
      simp [hmu]
  · cases hterm : s.terminating
    · rw [Shutdown_of_ready s range1 range2 hmu hterm]
    · rw [Shutdown_terminating s range1 range2 hterm]
      simp [hmu]
  · intro hterm
    rw [Shutdown_of_ready s range1 range2 hmu hterm]
    refine ⟨?_, [Effect.lock, Effect.readTerminating, Effect.setTerminating]
      ++ wave1 range1 ++ [Effect.sleep ShutdownHackySleep] ++ wave2 range2, by simp, ?_, ?_⟩
    · have := hs { s with terminating := true, wg := 0 } hmu
      simpa using this
    · intro hin
      simp only [List.mem_append, List.mem_cons, List.mem_singleton, List.not_mem_nil,
        or_false, reduceCtorEq, false_or, or_false] at hin
      rcases hin with h | h
      · obtain ⟨r, hr⟩ := hw1 _ h
        cases hr
      · obtain ⟨r, hr⟩ := hw2 _ h
        cases hr
    · intro hin
      simp only [List.mem_append, List.mem_cons, List.mem_singleton, List.not_mem_nil,
        or_false, reduceCtorEq, false_or, or_false] at hin
      rcases hin with h | h
      · obtain ⟨r, hr⟩ := hw1 _ h
        cases hr
      · obtain ⟨r, hr⟩ := hw2 _ h
        cases hr
  · intro hterm
    rw [Shutdown_terminating s range1 range2 hterm]
    simp [hmu, hs s hmu]

/-- The statement of `shutdown_waits_unless_terminating` on a supervisor with one
run goroutine outstanding: first with `terminating` unset, where the call waits
and leaves none outstanding, then with `terminating` set, where it returns at
once and leaves the goroutine outstanding. -/
theorem shutdown_waits_unless_terminating_witness :
    (Start (Services ⟨""⟩) [⟨fun _ => "apid"⟩]).state.mu = false ∧
    (Start (Services ⟨""⟩) [⟨fun _ => "apid"⟩]).state.wg = 1 ∧
    Shutdown (Start (Services ⟨""⟩) [⟨fun _ => "apid"⟩]).state
        [("apid", ⟨0, "apid"⟩)] [("apid", ⟨0, "apid"⟩)]
      = { state :=
            { (Start (Services ⟨""⟩) [⟨fun _ => "apid"⟩]).state with
              terminating := true, wg := 0 },
          trace := [Effect.lock, Effect.readTerminating, Effect.setTerminating]
            ++ wave1 [("apid", ⟨0, "apid"⟩)] ++ [Effect.sleep ShutdownHackySleep]
            ++ wave2 [("apid", ⟨0, "apid"⟩)] ++ [Effect.unlock, Effect.wgWait],
          returned := true } ∧
    Shutdown { (Start (Services ⟨""⟩) [⟨fun _ => "apid"⟩]).state with terminating := true }
        [("apid", ⟨0, "apid"⟩)] [("apid", ⟨0, "apid"⟩)]
      = { state :=
            { (Start (Services ⟨""⟩) [⟨fun _ => "apid"⟩]).state with terminating := true },
          trace := [Effect.lock, Effect.readTerminating, Effect.unlock],
          returned := true } :=
  ⟨by decide, by decide,
    ((shutdown_waits_unless_terminating (Start (Services ⟨""⟩) [⟨fun _ => "apid"⟩]).state
      [("apid", ⟨0, "apid"⟩)] [("apid", ⟨0, "apid"⟩)] (by decide)).2.2.1 (by decide)).1,
    (shutdown_waits_unless_terminating
      { (Start (Services ⟨""⟩) [⟨fun _ => "apid"⟩]).state with terminating := true }
      [("apid", ⟨0, "apid"⟩)] [("apid", ⟨0, "apid"⟩)] (by decide)).2.2.2 (by decide)⟩

theorem underLock_unlock_tail (p : Effect → Bool) (t : List Effect) (last : Effect)
    (h : ∀ e ∈ t, p e = false) (held : Bool) :
    underLock p held (t ++ [Effect.unlock, last]) = false := by
  induction t generalizing held with
  | nil => cases last <;> simp [underLock]
  | cons e rest ih =>
    have hrest : ∀ x ∈ rest, p x = false := fun x hx => h x (List.mem_cons_of_mem _ hx)
    have he : p e = false := h e (List.mem_cons_self _ _)
    have ih1 := ih hrest true
    have ih2 := ih hrest false
    cases e <;> cases held <;> simp [underLock, ih1, ih2, he]

theorem underLock_sleep (p : Effect → Bool) (t1 t2 : List Effect) (d : Nat)
    (hp : p (Effect.sleep d) = true) (h : Effect.unlock ∉ t1) :
    underLock p true (t1 ++ Effect.sleep d :: t2) = true := by
  induction t1 with
  | nil => simp [underLock, hp]
  | cons e rest ih =>
    have hrest : Effect.unlock ∉ rest := fun hx => h (List.mem_cons_of_mem _ hx)
    have he : e ≠ Effect.unlock := fun hx => h (by rw [hx]; exact List.mem_cons_self _ _)
    cases e <;> simp_all [underLock]

theorem underLock_of_quiet (p : Effect → Bool) (t : List Effect)
    (h : ∀ e ∈ t, p e = false) (held : Bool) : underLock p held t = false := by
  induction t generalizing held with
  | nil => simp [underLock]
  | cons e rest ih =>
    have hrest : ∀ x ∈ rest, p x = false := fun x hx => h x (List.mem_cons_of_mem _ hx)
    have he : p e = false := h e (List.mem_cons_self _ _)
    have ih1 := ih hrest true
    have ih2 := ih hrest false
    cases e <;> cases held <;> simp [underLock, ih1, ih2, he]

theorem Start_quiet (s : singleton) (services : List Service) :
    ∀ e ∈ (Start s services).trace, e.blocking = false := by
  cases hmu : s.mu
  · cases hterm : s.terminating
    · exact (Start_grows s services hmu hterm).quiet
    · rw [Start_terminating s services hterm]
      intro e he
      simp [hmu] at he
      rcases he with h | h <;> subst h <;> rfl
  · intro e he
    simp [Start, hmu] at he

/-- C7 fails on the code: in the first `Shutdown` on a fresh supervisor a blocking
operation (the settling sleep) is performed between `Lock` and `Unlock`. -/
theorem shutdown_sleeps_under_lock :
    underLock Effect.blocking false (Shutdown (Services ⟨""⟩) [] []).trace = true ∧
    (Shutdown (Services ⟨""⟩) [] []).trace
      = [Effect.lock, Effect.readTerminating, Effect.setTerminating,
          Effect.sleep ShutdownHackySleep, Effect.unlock, Effect.wgWait] := by
  decide

/-- C7 as amended: no `Start` call performs a blocking operation at all, so none
while it holds the mutex.  In no `Shutdown` call does the wait on the WaitGroup
happen while the mutex is held.  A `Shutdown` call that gets the mutex and finds
`terminating` unset holds the mutex from its first effect to the `Unlock` that
precedes the wait, and the settling sleep and every stop request of the call
happen in between.  A `Shutdown` call that finds `terminating` set performs no
blocking operation. -/
theorem lock_scope (s : singleton) (services : List Service) (range1 range2 : Registry) :
    (∀ e ∈ (Start s services).trace, e.blocking = false) ∧
    underLock Effect.blocking false (Start s services).trace = false ∧
    underLock (fun e => decide (e = Effect.wgWait)) false
      (Shutdown s range1 range2).trace = false ∧
    (s.mu = false → s.terminating = false →
      underLock Effect.blocking false (Shutdown s range1 range2).trace = true ∧
      ∃ middle,
        (Shutdown s range1 range2).trace
          = Effect.lock :: middle ++ [Effect.unlock, Effect.wgWait] ∧
        Effect.lock ∉ middle ∧ Effect.unlock ∉ middle ∧
        Effect.sleep ShutdownHackySleep ∈ middle ∧
        ∀ r, Effect.stop r ∈ (Shutdown s range1 range2).trace → Effect.stop r ∈ middle) ∧
    (s.terminating = true → ∀ e ∈ (Shutdown s range1 range2).trace, e.blocking = false) := by
  have hw1 : ∀ e ∈ wave1 range1, ∃ r, e = Effect.stop r := by
    intro e he
    obtain ⟨q, _, _, _, hq⟩ := mem_wave1 _ _ he
    exact ⟨q.2, hq⟩
  have hw2 : ∀ e ∈ wave2 range2, ∃ r, e = Effect.stop r := by
    intro e he
    obtain ⟨q, _, hq⟩ := mem_wave2 _ _ he
    exact ⟨q.2, hq⟩
  refine ⟨Start_quiet s services, underLock_of_quiet _ _ (Start_quiet s services) false, ?_, ?_,
    ?_⟩
  · cases hmu : s.mu
    · cases hterm : s.terminating
      · rw [Shutdown_of_ready s range1 range2 hmu hterm]
        apply underLock_unlock_tail
        intro e he
        simp only [List.mem_append, List.mem_cons, List.mem_singleton, List.not_mem_nil,
          or_false] at he
        rcases he with (((h | h | h) | h) | h) | h
        · subst h; rfl
        · subst h; rfl
        · subst h; rfl
        · obtain ⟨r, hr⟩ := hw1 e h
          subst hr; rfl
        · subst h; rfl
        · obtain ⟨r, hr⟩ := hw2 e h
          subst hr; rfl
      · rw [Shutdown_terminating s range1 range2 hterm]
        simp [hmu, underLock]
    · simp [Shutdown, hmu, underLock]
  · intro hmu hterm
    rw [Shutdown_of_ready s range1 range2 hmu hterm]
    have hno1 : Effect.unlock ∉ wave1 range1 := by
      intro h
      obtain ⟨r, hr⟩ := hw1 _ h
      cases hr
    have hno2 : Effect.unlock ∉ wave2 range2 := by
      intro h
      obtain ⟨r, hr⟩ := hw2 _ h
      cases hr
    have hlk1 : Effect.lock ∉ wave1 range1 := by
      intro h
      obtain ⟨r, hr⟩ := hw1 _ h
      cases hr
    have hlk2 : Effect.lock ∉ wave2 range2 := by
      intro h
      obtain ⟨r, hr⟩ := hw2 _ h
      cases hr
    refine ⟨?_, [Effect.readTerminating, Effect.setTerminating] ++ wave1 range1
      ++ [Effect.sleep ShutdownHackySleep] ++ wave2 range2, by simp, ?_, ?_, by simp, ?_⟩
    · have := underLock_sleep Effect.blocking
        ([Effect.readTerminating, Effect.setTerminating] ++ wave1 range1)
        (wave2 range2 ++ [Effect.unlock, Effect.wgWait]) ShutdownHackySleep rfl
        (by simp [hno1])
      simpa [underLock] using this
    · simp [hlk1, hlk2]
    · simp [hno1, hno2]
    · intro r hr
      simp only [List.mem_append, List.mem_cons, List.mem_singleton, List.not_mem_nil,
        or_false, reduceCtorEq, false_or, or_false] at hr
      simp only [List.mem_append, List.mem_cons, List.mem_singleton, List.not_mem_nil,
        or_false, reduceCtorEq, false_or, or_false]
      exact hr
  · intro hterm e he
    rw [Shutdown_terminating s range1 range2 hterm] at he
    cases hmu : s.mu
    · simp [hmu] at he
      rcases he with h | h | h <;> subst h <;> rfl
    · simp [hmu] at he

/-- The statement of `lock_scope` on a fresh supervisor. -/
theorem lock_scope_witness :
    (Services ⟨""⟩).mu = false ∧ (Services ⟨""⟩).terminating = false ∧
    underLock Effect.blocking false (Start (Services ⟨""⟩) [⟨fun _ => "kubelet"⟩]).trace
      = false ∧
    underLock (fun e => decide (e = Effect.wgWait)) false
      (Shutdown (Services ⟨""⟩) [] []).trace = false :=
  ⟨rfl, rfl, (lock_scope (Services ⟨""⟩) [⟨fun _ => "kubelet"⟩] [] []).2.1,
    (lock_scope (Services ⟨""⟩) [⟨fun _ => "kubelet"⟩] [] []).2.2.1⟩

/-! ## Kubelet arguments -/

theorem HasPrefix_iff (s affix : List Char) : HasPrefix s affix = true ↔ affix <+: s := by
  unfold HasPrefix
  rw [List.prefix_iff_eq_take]
  constructor
  · intro h
    simp only [Bool.and_eq_true, decide_eq_true_eq] at h
    exact h.2.symm
  · intro h
    simp only [Bool.and_eq_true, decide_eq_true_eq]
    refine ⟨?_, h.symm⟩
    have := congrArg List.length h
    simp only [List.length_take] at this
    omega

theorem HasSuffix_iff (s affix : List Char) : HasSuffix s affix = true ↔ affix <:+ s := by
  unfold HasSuffix
  rw [List.suffix_iff_eq_drop]
  constructor
  · intro h
    simp only [Bool.and_eq_true, decide_eq_true_eq] at h
    exact h.2.symm
  · intro h
    simp only [Bool.and_eq_true, decide_eq_true_eq]
    refine ⟨?_, h.symm⟩
    have := congrArg List.length h
    simp only [List.length_drop] at this
    omega

theorem TrimPrefix_spec (s affix : List Char) :
    (affix <+: s → s = affix ++ TrimPrefix s affix) ∧
    (¬ affix <+: s → TrimPrefix s affix = s) := by
  unfold TrimPrefix
  constructor
  · intro h
    rw [if_pos ((HasPrefix_iff s affix).2 h)]
    obtain ⟨t, rfl⟩ := h
    simp
  · intro h
    rw [if_neg (fun hc => h ((HasPrefix_iff s affix).1 hc))]

theorem TrimSuffix_spec (s affix : List Char) :
    (affix <:+ s → s = TrimSuffix s affix ++ affix) ∧
    (¬ affix <:+ s → TrimSuffix s affix = s) := by
  unfold TrimSuffix
  constructor
  · intro h
    rw [if_pos ((HasSuffix_iff s affix).2 h)]
    obtain ⟨t, rfl⟩ := h
    simp
  · intro h
    rw [if_neg (fun hc => h ((HasSuffix_iff s affix).1 hc))]

theorem IndexByte_none (s : List Char) (c : Char) (h : IndexByte s c = none) : c ∉ s := by
  induction s with
  | nil => simp
  | cons x rest ih =>
    by_cases hx : x = c
    · simp [IndexByte, hx] at h
    · simp only [IndexByte, hx, if_false, Option.map_eq_none'] at h
      intro hc
      rcases List.mem_cons.1 hc with h1 | h1
      · exact hx h1.symm
      · exact ih h h1

theorem IndexByte_some (s : List Char) (c : Char) (m : Nat) (h : IndexByte s c = some m) :
    s = s.take m ++ c :: s.drop (m + 1) ∧ c ∉ s.take m := by
  induction s generalizing m with
  | nil => simp [IndexByte] at h
  | cons x rest ih =>
    by_cases hx : x = c
    · simp only [IndexByte, hx, if_true, Option.some.injEq] at h
      subst h
      simp [hx]
    · simp only [IndexByte, hx, if_false, Option.map_eq_some'] at h
      obtain ⟨i, hi, rfl⟩ := h
      obtain ⟨h1, h2⟩ := ih i hi
      refine ⟨?_, ?_⟩
      · simp only [List.take_succ_cons, List.drop_succ_cons, List.cons_append]
        rw [← h1]
      · simp only [List.take_succ_cons, List.mem_cons, not_or]
        exact ⟨fun e => hx e.symm, h2⟩

theorem Join_cons (a : List Char) (l : List (List Char)) (sep : Char) (h : l ≠ []) :
    Join (a :: l) sep = a ++ sep :: Join l sep := by
  cases l with
  | nil => exact absurd rfl h
  | cons b rest => rfl

theorem splitLoop_spec (sep : Char) (n : Nat) (s : List Char) (h : s.count sep ≤ n) :
    Join (splitLoop sep n s) sep = s ∧ (∀ p ∈ splitLoop sep n s, sep ∉ p) ∧
    (splitLoop sep n s).length = s.count sep + 1 := by
  induction n generalizing s with
  | zero =>
    have h0 : s.count sep = 0 := by omega
    have hnot : sep ∉ s := List.count_eq_zero.1 h0
    simp [splitLoop, Join, hnot, h0]
  | succ k ih =>
    cases hidx : IndexByte s sep with
    | none =>
      have hnot := IndexByte_none s sep hidx
      have h0 : s.count sep = 0 := List.count_eq_zero.2 hnot
      simp [splitLoop, hidx, Join, hnot, h0]
    | some m =>
      obtain ⟨hs, hnot⟩ := IndexByte_some s sep m hidx
      have hcount : s.count sep = (s.drop (m + 1)).count sep + 1 := by
        conv_lhs => rw [hs]
        rw [List.count_append, List.count_eq_zero.2 hnot, List.count_cons_self]
        omega
      obtain ⟨j, hp, hl⟩ := ih (s.drop (m + 1)) (by omega)
      have hne : splitLoop sep k (s.drop (m + 1)) ≠ [] := by
        intro e
        rw [e] at hl
        simp at hl
      simp only [splitLoop, hidx]
      refine ⟨?_, ?_, ?_⟩
      · rw [Join_cons _ _ _ hne, j]
        exact hs.symm
      · intro p hpm
        rcases List.mem_cons.1 hpm with h1 | h1
        · rw [h1]; exact hnot
        · exact hp p h1
      · simp only [List.length_cons, hl]
        omega

theorem Split_spec (s : List Char) (sep : Char) :
    Join (Split s sep) sep = s ∧ (∀ p ∈ Split s sep, sep ∉ p) ∧
    (Split s sep).length = s.count sep + 1 :=
  splitLoop_spec sep (s.count sep) s (Nat.le_refl _)

/-- C9: for every content `c` of /var/lib/kubelet/kubeadm-flags.env, the process
arguments of the runner `Kubelet.Runner` returns are the eight fixed arguments
in order followed by `pieces`, where `stripped` is `c` without one leading
"KUBELET_KUBEADM_ARGS=" when it has one (else `c`), `trimmed` is `stripped`
without one trailing "\n" when it has one (else `stripped`), and `pieces` are
the pieces of `trimmed` between its spaces: joined by single spaces they give
`trimmed`, none contains a space, and there is one more of them than `trimmed`
has spaces, so empty pieces are passed as arguments too. -/
theorem kubelet_process_args (ContainerdAddress c : List Char) (data : UserData) :
    ∃ stripped trimmed pieces,
      ("KUBELET_KUBEADM_ARGS=".toList <+: c → c = "KUBELET_KUBEADM_ARGS=".toList ++ stripped) ∧
      (¬ "KUBELET_KUBEADM_ARGS=".toList <+: c → stripped = c) ∧
      ("\n".toList <:+ stripped → stripped = trimmed ++ "\n".toList) ∧
      (¬ "\n".toList <:+ stripped → trimmed = stripped) ∧
      Join pieces ' ' = trimmed ∧
      (∀ p ∈ pieces, ' ' ∉ p) ∧
      pieces.length = trimmed.count ' ' + 1 ∧
      Kubelet.Runner ContainerdAddress data (Except.ok c) (Except.ok ()) =
        Except.ok
          { ID := "kubelet",
            ProcessArgs :=
              [ "/hyperkube".toList,
                "kubelet".toList,
                "--bootstrap-kubeconfig=/etc/kubernetes/bootstrap-kubelet.conf".toList,
                "--kubeconfig=/etc/kubernetes/kubelet.conf".toList,
                "--config=/var/lib/kubelet/config.yaml".toList,
                "--container-runtime=remote".toList,
                "--runtime-request-timeout=15m".toList,
                "--container-runtime-endpoint=unix://".toList ++ ContainerdAddress ]
              ++ pieces } := by
  refine ⟨TrimPrefix c "KUBELET_KUBEADM_ARGS=".toList,
    TrimSuffix (TrimPrefix c "KUBELET_KUBEADM_ARGS=".toList) "\n".toList,
    Split (TrimSuffix (TrimPrefix c "KUBELET_KUBEADM_ARGS=".toList) "\n".toList) ' ',
    (TrimPrefix_spec _ _).1, (TrimPrefix_spec _ _).2,
    (TrimSuffix_spec _ _).1, (TrimSuffix_spec _ _).2,
    (Split_spec _ _).1, (Split_spec _ _).2.1, (Split_spec _ _).2.2, rfl⟩

/-! ## Kubeadm variant detection -/

theorem unmarshalInit_ok (lib : KubeadmLib) (kdm kdm1 : Kubeadm) (b : String)
    (gvks : List GroupVersionKind) (h : unmarshalInit lib kdm b gvks = (kdm1, none)) :
    kdm1.ConfigurationStr = kdm.ConfigurationStr ∧ kdm1.controlPlane = kdm.controlPlane ∧
    (GroupVersionKindsHasInitConfiguration gvks = true → kdm1.bootstrap = true ∧
      ∃ cfg, lib.BytesToInitConfiguration b = Except.ok cfg ∧
        kdm1.Configuration = some (Object.initConfiguration cfg)) ∧
    (GroupVersionKindsHasInitConfiguration gvks = false → kdm1 = kdm) := by
  unfold unmarshalInit at h
  cases hi : GroupVersionKindsHasInitConfiguration gvks
  · simp only [hi, Bool.false_eq_true, if_false, Prod.mk.injEq, and_true] at h
    subst h
    simp
  · simp only [hi, if_true] at h
    cases hb : lib.BytesToInitConfiguration b with
    | error err => simp [hb] at h
    | ok cfg =>
      simp only [hb, Prod.mk.injEq, and_true] at h
      subst h
      simp

theorem unmarshalJoin_ok (lib : KubeadmLib) (kdm kdm2 : Kubeadm) (b : String)
    (gvks : List GroupVersionKind) (h : unmarshalJoin lib kdm b gvks = (kdm2, none)) :
    kdm2.ConfigurationStr = kdm.ConfigurationStr ∧
    (GroupVersionKindsHasJoinConfiguration gvks = true → kdm2.bootstrap = false ∧
      ∃ jc, lib.UnmarshalFromYamlForCodecs b = Except.ok (Object.joinConfiguration jc) ∧
        kdm2.Configuration = some (Object.joinConfiguration jc) ∧
        (kdm2.controlPlane = true ↔ jc.ControlPlane ≠ none)) ∧
    (GroupVersionKindsHasJoinConfiguration gvks = false → kdm2 = kdm) := by
  unfold unmarshalJoin at h
  cases hj : GroupVersionKindsHasJoinConfiguration gvks
  · simp only [hj, Bool.false_eq_true, if_false, Prod.mk.injEq, and_true] at h
    subst h
    simp
  · simp only [hj, if_true] at h
    cases hb : lib.UnmarshalFromYamlForCodecs b with
    | error err => simp [hb] at h
    | ok cfg =>
      cases cfg with
      | initConfiguration c => simp [hb] at h
      | other k => simp [hb] at h
      | joinConfiguration jc =>
        simp only [hb] at h
        by_cases hcp : jc.ControlPlane = none
        · simp only [hcp, if_true, Prod.mk.injEq, and_true] at h
          subst h
          simp [hcp]
        · simp only [hcp, if_false, Prod.mk.injEq, and_true] at h
          subst h
          simp [hcp]

/-- C10: when `UnmarshalYAML` on a zero-valued `Kubeadm` returns nil, the kinds
found in the decoded configuration string decide the variant: `bootstrap` is true
exactly when there is an InitConfiguration kind and no JoinConfiguration kind;
`controlPlane` is true exactly when there is a JoinConfiguration kind and the
decoded JoinConfiguration has a non-nil ControlPlane; whenever a JoinConfiguration
kind is present (also next to an InitConfiguration kind) `Configuration` is the
decoded JoinConfiguration and `bootstrap` is false. -/
theorem kubeadm_variant_detection (lib : KubeadmLib)
    (unmarshal : KubeadmAlias → KubeadmAlias × Option String) (kdm : Kubeadm)
    (h : Kubeadm.UnmarshalYAML lib Kubeadm.zero unmarshal = (kdm, none)) :
    kdm.ConfigurationStr = (unmarshal Kubeadm.zero.alias).1.ConfigurationStr ∧
    ∃ gvks, lib.GroupVersionKindsFromBytes kdm.ConfigurationStr = Except.ok gvks ∧
      (kdm.bootstrap = true ↔
        GroupVersionKindsHasKind gvks "InitConfiguration" = true ∧
        GroupVersionKindsHasKind gvks "JoinConfiguration" = false) ∧
      (kdm.controlPlane = true ↔
        GroupVersionKindsHasKind gvks "JoinConfiguration" = true ∧
        ∃ jc, lib.UnmarshalFromYamlForCodecs kdm.ConfigurationStr
            = Except.ok (Object.joinConfiguration jc) ∧ jc.ControlPlane ≠ none) ∧
      (GroupVersionKindsHasKind gvks "JoinConfiguration" = true →
        kdm.bootstrap = false ∧
        ∃ jc, lib.UnmarshalFromYamlForCodecs kdm.ConfigurationStr
            = Except.ok (Object.joinConfiguration jc) ∧
          kdm.Configuration = some (Object.joinConfiguration jc)) := by
  unfold Kubeadm.UnmarshalYAML at h
  cases hu : (unmarshal Kubeadm.zero.alias).2 with
  | some err => simp [hu] at h
  | none =>
    simp only [hu] at h
    cases hg : lib.GroupVersionKindsFromBytes
        (Kubeadm.zero.decoded (unmarshal Kubeadm.zero.alias).1).ConfigurationStr with
    | error err => simp [hg] at h
    | ok gvks =>
      simp only [hg] at h
      cases h1 : unmarshalInit lib (Kubeadm.zero.decoded (unmarshal Kubeadm.zero.alias).1)
          (Kubeadm.zero.decoded (unmarshal Kubeadm.zero.alias).1).ConfigurationStr gvks with
      | mk kdm1 e1 =>
        cases e1 with
        | some err => simp [h1] at h
        | none =>
          simp only [h1] at h
          obtain ⟨a1, a2, a3, a4⟩ := unmarshalInit_ok lib _ _ _ _ h1
          obtain ⟨b1, b2, b3⟩ := unmarshalJoin_ok lib _ _ _ _ h
          have hstr : kdm.ConfigurationStr
              = (Kubeadm.zero.decoded (unmarshal Kubeadm.zero.alias).1).ConfigurationStr :=
            b1.trans a1
          have hcp0 : (Kubeadm.zero.decoded (unmarshal Kubeadm.zero.alias).1).controlPlane
              = false := rfl
          have hbs0 : (Kubeadm.zero.decoded (unmarshal Kubeadm.zero.alias).1).bootstrap
              = false := rfl
          refine ⟨hstr, gvks, by rw [hstr]; exact hg, ?_, ?_, ?_⟩
          · cases hj : GroupVersionKindsHasJoinConfiguration gvks
            · have hk := b3 hj
              cases hi : GroupVersionKindsHasInitConfiguration gvks
              · have := a4 hi
                unfold GroupVersionKindsHasInitConfiguration at hi
                unfold GroupVersionKindsHasJoinConfiguration at hj
                rw [hk, this, hbs0, hi, hj]
                simp
              · have := (a3 hi).1
                unfold GroupVersionKindsHasInitConfiguration at hi
                unfold GroupVersionKindsHasJoinConfiguration at hj
                rw [hk, this, hi, hj]
                simp
            · have := (b2 hj).1
              unfold GroupVersionKindsHasJoinConfiguration at hj
              rw [this, hj]
              simp
          · cases hj : GroupVersionKindsHasJoinConfiguration gvks
            · have hk := b3 hj
              unfold GroupVersionKindsHasJoinConfiguration at hj
              rw [hk, a2, hcp0, hj]
              simp
            · obtain ⟨_, jc, c1, _, c3⟩ := b2 hj
              unfold GroupVersionKindsHasJoinConfiguration at hj
              rw [hj, hstr, c1, c3]
              constructor
              · intro hne
                exact ⟨rfl, jc, rfl, hne⟩
              · rintro ⟨_, jc2, e2, hne⟩
                cases e2
                exact hne
          · intro hj
            obtain ⟨c0, jc, c1, c2, _⟩ := b2 hj
            exact ⟨c0, jc, by rw [hstr]; exact c1, c2⟩

/-- The statement of `kubeadm_variant_detection` on a document holding both kinds. -/
theorem kubeadm_variant_detection_witness :
    Kubeadm.UnmarshalYAML sampleLib Kubeadm.zero sampleUnmarshal
      = ({ Kubeadm.zero with
            ConfigurationStr := "kind: JoinConfiguration",
            Configuration := some (Object.joinConfiguration ⟨some "cp"⟩),
            bootstrap := false, controlPlane := true }, none) ∧
    ("kind: JoinConfiguration" = (sampleUnmarshal Kubeadm.zero.alias).1.ConfigurationStr) :=
  ⟨by decide,
    (kubeadm_variant_detection sampleLib sampleUnmarshal
      { Kubeadm.zero with
        ConfigurationStr := "kind: JoinConfiguration",
        Configuration := some (Object.joinConfiguration ⟨some "cp"⟩),
        bootstrap := false, controlPlane := true } (by decide)).1⟩

end Talos
